import Mathlib

/-!
Verification development for the SyncFrame bidirectional sync engine.

Shallow embedding of the core of the repository:
  * `packages/core/src/engine.ts` — `SyncEngine` (`run`, `transformAndDedup`,
    `handleConflict`, `extractTimestamp`, `pushChanges`, `applyWithRetry`);
  * `packages/linkindex/src/in-memory-link-index.ts` — `InMemoryLinkIndex`;
  * `packages/adapters/src/in-memory-adapter.ts` — `InMemoryAdapter`.

Conventions of the embedding:
  * JavaScript `Map` objects are modelled as association lists with
    `Map`-faithful operations (`set` replaces in place keeping insertion order,
    `delete` removes the entry, `get` looks up); JS `Set` as a list with
    membership-guarded insertion.
  * `async` code is sequentialised; a thrown exception is an `Except.error`
    carrying the message together with the states mutated before the throw.
  * Wall-clock values (`Date.now()`, durations) and sleeping are not modelled;
    the retry loop instead records the requested wait in an event trace.
  * `Date.parse` is a runtime builtin, not repository code: it is threaded
    through as a parameter `dp : String → Option Int`.
  * Side-effecting calls the engine issues against adapters and the link index
    are additionally recorded in an event trace, so that claims of the form
    "operation X is (never) invoked" are directly statable.
-/

namespace SyncFrame

/-- Model of a JS value stored in a record field (`Record = { id, [key]: any }`
in `types.ts`): a number, a string, a `Date`, or anything else. -/
inductive JsValue where
  | num (n : Int)
  | str (s : String)
  | date (t : Int)
  | other
deriving DecidableEq, Repr

/-- JS truthiness of a field value: `0` and `""` are falsy, `Date` objects and
other objects are truthy. -/
def JsValue.truthy : JsValue → Bool
  | .num n => n ≠ 0
  | .str s => s ≠ ""
  | .date _ => true
  | .other => true

/-- Embedding of `Record` from `types.ts`: a mandatory `id` plus an opaque bag
of fields. -/
structure Rec where
  id : String
  fields : List (String × JsValue)
deriving DecidableEq, Repr

/-- Embedding of `Cursor` from `types.ts`: `{ value: string | null }`. -/
structure CursorM where
  value : Option String
deriving DecidableEq, Repr

/-- Embedding of `ChangeSet` from `types.ts`. -/
structure ChangeSetM where
  upserts : List Rec
  deletes : List String
deriving DecidableEq, Repr

/-- Lookup in an association list, modelling `Map.prototype.get`. -/
def jsGet (m : List (String × α)) (k : String) : Option α :=
  match m.find? (fun p => p.1 == k) with
  | some p => some p.2
  | none => none

/-- Update in an association list, modelling `Map.prototype.set`: replaces the
value in place if the key is present (keeping insertion order), appends
otherwise. -/
def jsSet (m : List (String × α)) (k : String) (v : α) : List (String × α) :=
  match m with
  | [] => [(k, v)]
  | (k', v') :: rest =>
      if k' == k then (k, v) :: rest else (k', v') :: jsSet rest k v

/-- Removal from an association list, modelling `Map.prototype.delete`. -/
def jsDelete (m : List (String × α)) (k : String) : List (String × α) :=
  match m with
  | [] => []
  | (k', v') :: rest =>
      if k' == k then rest else (k', v') :: jsDelete rest k

/-- Lookup of a record field, modelling `rec[field]`. -/
def Rec.get (r : Rec) (f : String) : Option JsValue :=
  jsGet r.fields f

/-- The timestamp field priority list of `SyncEngine.extractTimestamp`
(`engine.ts` lines 473-482). -/
def timestampFields : List String :=
  ["updatedAt", "updated_at", "updatedOn", "updated_on",
   "lastModified", "last_modified", "modifiedAt", "modified_at"]

/-- Core of `SyncEngine.extractTimestamp`: try each field name in priority
order; a truthy number is returned directly, a truthy string goes through
`Date.parse` (`dp`) and falls through to the next field when unparsable, a
`Date` yields its epoch value; falsy or absent values fall through. -/
def extractTimestampGo (dp : String → Option Int) (r : Rec) :
    List String → Option Int
  | [] => none
  | f :: fs =>
      match r.get f with
      | some v =>
          if v.truthy then
            match v with
            | .num n => some n
            | .str s =>
                match dp s with
                | some t => some t
                | none => extractTimestampGo dp r fs
            | .date t => some t
            | .other => extractTimestampGo dp r fs
          else extractTimestampGo dp r fs
      | none => extractTimestampGo dp r fs

/-- Embedding of `SyncEngine.extractTimestamp` (`engine.ts` lines 472-503). -/
def extractTimestamp (dp : String → Option Int) (r : Rec) : Option Int :=
  extractTimestampGo dp r timestampFields

/-- Embedding of `ConflictPolicy` from `engine.ts`. -/
inductive ConflictPolicyM where
  | lastWriterWins
  | manual
deriving DecidableEq, Repr

/-- Run status (`RunSummary.status` in `types.ts`); `mixed` stands for the
source's "partial" status string. -/
inductive RunStatus where
  | success
  | mixed
  | failed
deriving DecidableEq, Repr

/-- The mutable `stats` object of `SyncEngine.run` (`engine.ts` lines
172-180). -/
structure Stats where
  upsertsAtoB : Nat := 0
  deletesAtoB : Nat := 0
  upsertsBtoA : Nat := 0
  deletesBtoA : Nat := 0
  conflicts : Nat := 0
  errors : List String := []
  retries : Nat := 0
deriving DecidableEq, Repr

/-- The `summaryJson` payload of a `RunSummary`: the stats spread plus the
optional `reason` (disabled path) and `fatalError` (catch path) keys.
`durationMs` is wall-clock and not modelled. -/
structure SummaryJson where
  stats : Stats := {}
  reason : Option String := none
  fatalError : Option String := none
deriving DecidableEq, Repr

/-- Embedding of `RunSummary` from `types.ts`; `startedAt`/`endedAt` are
wall-clock values and not modelled. -/
structure RunSummaryM where
  runId : String
  jobId : String
  status : RunStatus
  summaryJson : SummaryJson
deriving DecidableEq, Repr

/-- JS truthiness filter on `string | null` values: checks such as the
engine's `if (existingDestId)` and the link index's `if (oldDest)` /
`if (oldSource)` treat both `null` and the empty string as absent. -/
def truthyStr : Option String → Option String
  | some s => if s = "" then none else some s
  | none => none

/-- State of `InMemoryLinkIndex`
(`packages/linkindex/src/in-memory-link-index.ts`): bidirectional link maps,
cursor map keyed by the string `jobId ++ ":" ++ side`, disabled-job map and the
run-log map keyed by `runId`. -/
structure LinkIndexState where
  sourceToDest : List (String × String)
  destToSource : List (String × String)
  cursors : List (String × CursorM)
  disabledJobs : List (String × Int)
  runs : List (String × RunSummaryM)
deriving DecidableEq, Repr

/-- Embedding of `InMemoryLinkIndex.upsertLink` (`in-memory-link-index.ts`
lines 42-57): delete the old destination binding of `sourceId`, then the old
source binding of `destId`, then install the new pair in both maps. The
cleanup steps sit behind the JS truthiness guards `if (oldDest)` /
`if (oldSource)`, so a falsy (empty-string) old binding is left in place. -/
def upsertLinkM (st : LinkIndexState) (sourceId destId : String) :
    LinkIndexState :=
  let destToSource1 :=
    match truthyStr (jsGet st.sourceToDest sourceId) with
    | some oldDest => jsDelete st.destToSource oldDest
    | none => st.destToSource
  let sourceToDest1 :=
    match truthyStr (jsGet destToSource1 destId) with
    | some oldSource => jsDelete st.sourceToDest oldSource
    | none => st.sourceToDest
  { st with
    sourceToDest := jsSet sourceToDest1 sourceId destId
    destToSource := jsSet destToSource1 destId sourceId }

/-- Embedding of `InMemoryLinkIndex.findDest`. -/
def findDestM (st : LinkIndexState) (sourceId : String) : Option String :=
  jsGet st.sourceToDest sourceId

/-- Embedding of `InMemoryLinkIndex.findSource`. -/
def findSourceM (st : LinkIndexState) (destId : String) : Option String :=
  jsGet st.destToSource destId

/-- Embedding of `InMemoryLinkIndex.loadCursor` (`in-memory-link-index.ts`
lines 76-80): `{ value: null }` when absent. -/
def loadCursorM (st : LinkIndexState) (jobId side : String) : CursorM :=
  match jsGet st.cursors (jobId ++ ":" ++ side) with
  | some c => c
  | none => { value := none }

/-- Embedding of `InMemoryLinkIndex.saveCursor` (`in-memory-link-index.ts`
lines 85-88). -/
def saveCursorM (st : LinkIndexState) (jobId side : String) (c : CursorM) :
    LinkIndexState :=
  { st with cursors := jsSet st.cursors (jobId ++ ":" ++ side) c }

/-- Embedding of `InMemoryLinkIndex.isJobDisabled`. -/
def isJobDisabledM (st : LinkIndexState) (jobId : String) : Bool :=
  (jsGet st.disabledJobs jobId).isSome

/-- Embedding of `InMemoryLinkIndex.insertRun`: `runs.set(run.runId, run)`. -/
def insertRunM (st : LinkIndexState) (r : RunSummaryM) : LinkIndexState :=
  { st with runs := jsSet st.runs r.runId r }

/-- The two sides of a job. -/
inductive Side where
  | a
  | b
deriving DecidableEq, Repr

/-- Trace events for the side-effecting calls the engine can issue against the
adapters and the link index. The constructors cover the full `SourceAdapter`
and `LinkIndex` interfaces of the repository (the latter in its extended form
with fail counts and conflicts, `types.ts`), so that both the operations the
engine performs and the ones it never invokes are statable. -/
inductive Ev where
  | getUpdates (side : Side)
  | applyChanges (side : Side) (cs : ChangeSetM)
  | throttle (side : Side)
  | wait (ms : Nat)
  | upsertLink (s d : String)
  | saveCursor (side : String) (c : CursorM)
  | insertRun (r : RunSummaryM)
  | insertConflict
  | incrementFailCount (side : String)
  | resetFailCount (side : String)
  | setJobDisabled (jobId : String)
deriving DecidableEq, Repr

/-- An adapter (the `SourceAdapter` contract) as a deterministic state
machine over a state type `σ`: both operations may throw and may advance the
adapter's internal state either way. -/
structure AdapterImpl (σ : Type) where
  getUpdates : σ → CursorM → (Except String (ChangeSetM × CursorM)) × σ
  applyChanges : σ → ChangeSetM → (Except String Unit) × σ

/-- Modelling `Set.prototype.add`: append when absent. -/
def jsSetAdd (l : List String) (s : String) : List String :=
  if l.contains s then l else l ++ [s]

/-- Embedding of `SyncEngine.handleConflict` (`engine.ts` lines 434-467).
Under `manual` it counts the conflict and reports "handled" (skip). Under
`last_writer_wins` it extracts the source timestamp but — as the source
comments note — never fetches a destination timestamp, and proceeds in both
branches. The source's `destId`, `sourceSide` and `destSide` parameters feed
only the log line and are dropped here. -/
def handleConflict (dp : String → Option Int) (policy : ConflictPolicyM)
    (sourceRec : Rec) (stats : Stats) : Bool × Stats :=
  match policy with
  | .manual => (true, { stats with conflicts := stats.conflicts + 1 })
  | .lastWriterWins =>
      match extractTimestamp dp sourceRec with
      | none => (false, stats)
      | some _ => (false, stats)

/-- Accumulator of `SyncEngine.transformAndDedup`: the mapped changeset under
construction, the `linkMap`, the shared `pushedThisCycle` set and the mutable
`stats`. -/
structure TransformAcc where
  upserts : List Rec
  deletes : List String
  linkMap : List (String × String)
  pushed : List String
  stats : Stats
deriving DecidableEq, Repr

/-- The upsert loop of `SyncEngine.transformAndDedup` (`engine.ts` lines
356-410): intra-cycle echo guard, mapper application (per-record non-fatal
failure), cross-cycle echo guard via `findSource`, then the existing-link /
new-record split with conflict handling. -/
def transformUpserts (dp : String → Option Int) (policy : ConflictPolicyM)
    (mapper : Rec → Except String Rec) (li : LinkIndexState) :
    List Rec → TransformAcc → TransformAcc
  | [], acc => acc
  | sourceRec :: rest, acc =>
      if acc.pushed.contains sourceRec.id then
        transformUpserts dp policy mapper li rest acc
      else
        match mapper sourceRec with
        | .error e =>
            let msg := "Failed to map record " ++ sourceRec.id ++ ": " ++ e
            transformUpserts dp policy mapper li rest
              { acc with stats :=
                  { acc.stats with errors := acc.stats.errors ++ [msg] } }
        | .ok destRec =>
            if findSourceM li destRec.id = some sourceRec.id then
              transformUpserts dp policy mapper li rest acc
            else
              match truthyStr (findDestM li sourceRec.id) with
              | some existingDestId =>
                  let res := handleConflict dp policy sourceRec acc.stats
                  if res.1 then
                    transformUpserts dp policy mapper li rest
                      { acc with stats := res.2 }
                  else
                    transformUpserts dp policy mapper li rest
                      { acc with
                        upserts := acc.upserts ++ [destRec]
                        linkMap := jsSet acc.linkMap sourceRec.id existingDestId
                        pushed := jsSetAdd acc.pushed sourceRec.id
                        stats := res.2 }
              | none =>
                  transformUpserts dp policy mapper li rest
                    { acc with
                      upserts := acc.upserts ++ [destRec]
                      linkMap := jsSet acc.linkMap sourceRec.id destRec.id
                      pushed := jsSetAdd acc.pushed sourceRec.id }

/-- The delete loop of `SyncEngine.transformAndDedup` (`engine.ts` lines
413-425). -/
def transformDeletes (li : LinkIndexState) :
    List String → TransformAcc → TransformAcc
  | [], acc => acc
  | srcId :: rest, acc =>
      if acc.pushed.contains srcId then transformDeletes li rest acc
      else
        match truthyStr (findDestM li srcId) with
        | some existingDestId =>
            transformDeletes li rest
              { acc with
                deletes := acc.deletes ++ [existingDestId]
                pushed := jsSetAdd acc.pushed srcId }
        | none => transformDeletes li rest acc

/-- Embedding of `SyncEngine.transformAndDedup` (`engine.ts` lines 342-428). -/
def transformAndDedup (dp : String → Option Int) (policy : ConflictPolicyM)
    (mapper : Rec → Except String Rec) (li : LinkIndexState)
    (changes : ChangeSetM) (pushed : List String) (stats : Stats) :
    TransformAcc :=
  transformDeletes li changes.deletes
    (transformUpserts dp policy mapper li changes.upserts
      { upserts := [], deletes := [], linkMap := [], pushed := pushed,
        stats := stats })

/-- Loop of `SyncEngine.applyWithRetry` (`engine.ts` lines 556-589), with
`remaining` attempts left and `attempt` the 1-based attempt number (the caller
maintains `attempt + remaining = maxAttempts + 1`). Each attempt throttles and
calls `applyChanges`; a failure at `attempt < maxAttempts` bumps the `retries`
counter and waits `backoffSec * 1000 * 2 ^ (attempt - 1)` ms; exhaustion
records and throws the `Failed after N attempts` message. -/
def applyWithRetryGo (ad : AdapterImpl σ) (side : Side) (changes : ChangeSetM)
    (maxAttempts backoffSec : Nat) :
    Nat → Nat → Option String → σ → Stats → List Ev →
    (Except String Unit) × σ × Stats × List Ev
  | 0, _, lastErr, s, stats, tr =>
      let msg := "Failed after " ++ toString maxAttempts ++ " attempts: " ++
        lastErr.getD "undefined"
      (.error msg, s, { stats with errors := stats.errors ++ [msg] }, tr)
  | r + 1, attempt, _, s, stats, tr =>
      let tr1 := tr ++ [Ev.throttle side]
      let call := ad.applyChanges s changes
      let tr2 := tr1 ++ [Ev.applyChanges side changes]
      match call.1 with
      | .ok _ => (.ok (), call.2, stats, tr2)
      | .error e =>
          if r > 0 then
            applyWithRetryGo ad side changes maxAttempts backoffSec r
              (attempt + 1) (some e) call.2
              { stats with retries := stats.retries + 1 }
              (tr2 ++ [Ev.wait (backoffSec * 1000 * 2 ^ (attempt - 1))])
          else
            let msg := "Failed after " ++ toString maxAttempts ++
              " attempts: " ++ e
            (.error msg, call.2,
              { stats with errors := stats.errors ++ [msg] }, tr2)

/-- Embedding of `SyncEngine.applyWithRetry`. -/
def applyWithRetry (ad : AdapterImpl σ) (side : Side) (changes : ChangeSetM)
    (maxAttempts backoffSec : Nat) (s : σ) (stats : Stats) (tr : List Ev) :
    (Except String Unit) × σ × Stats × List Ev :=
  applyWithRetryGo ad side changes maxAttempts backoffSec maxAttempts 1 none
    s stats tr

/-- Fuel-driven helper for `jsChunks`; the fuel starts at the list length,
which suffices since every positive batch size shortens the list. -/
def jsChunksFuel (n : Nat) : Nat → List α → List (List α)
  | _, [] => []
  | 0, _ :: _ => []
  | fuel + 1, x :: xs =>
      if n = 0 then []
      else (x :: xs).take n :: jsChunksFuel n fuel ((x :: xs).drop n)

/-- Batch slicing of `SyncEngine.pushChanges`: `slice(i, i + batchSize)` for
`i = 0, batchSize, 2*batchSize, …`. A batch size of 0 makes the source loop
diverge and is excluded (the engine always substitutes a positive default). -/
def jsChunks (n : Nat) (l : List α) : List (List α) :=
  jsChunksFuel n l.length l

/-- Sequential application of the batches of one direction, aborting on the
first exhausted batch (the thrown error propagates). -/
def pushBatches (ad : AdapterImpl σ) (side : Side)
    (maxAttempts backoffSec : Nat) :
    List ChangeSetM → σ → Stats → List Ev →
    (Except String Unit) × σ × Stats × List Ev
  | [], s, stats, tr => (.ok (), s, stats, tr)
  | b :: rest, s, stats, tr =>
      match applyWithRetry ad side b maxAttempts backoffSec s stats tr with
      | (.ok _, s', stats', tr') =>
          pushBatches ad side maxAttempts backoffSec rest s' stats' tr'
      | (.error e, s', stats', tr') => (.error e, s', stats', tr')

/-- Embedding of `SyncEngine.pushChanges` (`engine.ts` lines 508-551): chunk
the upserts, then the deletes, into `batchSize` slices, each pushed through
`applyWithRetry`. -/
def pushChanges (ad : AdapterImpl σ) (side : Side) (changes : ChangeSetM)
    (batchSize maxAttempts backoffSec : Nat) (s : σ) (stats : Stats)
    (tr : List Ev) : (Except String Unit) × σ × Stats × List Ev :=
  pushBatches ad side maxAttempts backoffSec
    ((jsChunks batchSize changes.upserts).map
        (fun b => { upserts := b, deletes := [] }) ++
      (jsChunks batchSize changes.deletes).map
        (fun b => { upserts := [], deletes := b }))
    s stats tr

/-- The job configuration as `SyncEngine`'s constructor normalises it:
side keys, per-side batch sizes (from the throttle configs), the retry config
and the conflict policy. `disableJobAfter` is part of `RetryConfig` but is
never read by the engine. -/
structure EngineCfg where
  jobId : String
  sideKeyA : String := "sideA"
  sideKeyB : String := "sideB"
  batchSizeA : Nat := 10
  batchSizeB : Nat := 10
  maxAttempts : Nat := 5
  backoffSec : Nat := 30
  disableJobAfter : Nat := 20
  policy : ConflictPolicyM := .lastWriterWins

/-- Result of one `run()` cycle: the returned summary, both adapter states,
the link-index state and the trace of side-effecting calls. -/
structure RunResult (α β : Type) where
  summary : RunSummaryM
  stA : α
  stB : β
  li : LinkIndexState
  trace : List Ev
deriving Repr

/-- The per-direction `for (const [sourceId, destId] of linkMap)` loop of
`run()` installing links after a successful push. -/
def installLinks : LinkIndexState → List Ev → List (String × String) →
    LinkIndexState × List Ev
  | li, tr, [] => (li, tr)
  | li, tr, (s, d) :: rest =>
      installLinks (upsertLinkM li s d) (tr ++ [Ev.upsertLink s d]) rest

/-- The `catch` block of `run()` (`engine.ts` lines 308-335): append the
thrown message to the errors, build a `failed` summary carrying the stats and
the fatal error, persist it via `insertRun` and return it. -/
def runCatch (runId : String) (cfg : EngineCfg) (errorMsg : String)
    (stats : Stats) (sa : α) (sb : β) (li : LinkIndexState) (tr : List Ev) :
    RunResult α β :=
  let stats1 := { stats with errors := stats.errors ++ [errorMsg] }
  let summary : RunSummaryM :=
    { runId := runId, jobId := cfg.jobId, status := .failed,
      summaryJson := { stats := stats1, fatalError := some errorMsg } }
  { summary := summary, stA := sa, stB := sb, li := insertRunM li summary,
    trace := tr ++ [Ev.insertRun summary] }

/-- Step 5 of `run()`: save both cursors, classify the status (`partial` iff
errors were recorded but some upserts were pushed), persist and return the
summary. -/
def runPersist (runId : String) (cfg : EngineCfg)
    (nextCursorA nextCursorB : CursorM) (stats : Stats) (sa : α) (sb : β)
    (li : LinkIndexState) (tr : List Ev) : RunResult α β :=
  let li1 := saveCursorM li cfg.jobId cfg.sideKeyA nextCursorA
  let li2 := saveCursorM li1 cfg.jobId cfg.sideKeyB nextCursorB
  let tr1 := tr ++ [Ev.saveCursor cfg.sideKeyA nextCursorA,
    Ev.saveCursor cfg.sideKeyB nextCursorB]
  let status :=
    if 0 < stats.errors.length then
      if 0 < stats.upsertsAtoB + stats.upsertsBtoA then RunStatus.mixed
      else RunStatus.failed
    else RunStatus.success
  let summary : RunSummaryM :=
    { runId := runId, jobId := cfg.jobId, status := status,
      summaryJson := { stats := stats } }
  { summary := summary, stA := sa, stB := sb, li := insertRunM li2 summary,
    trace := tr1 ++ [Ev.insertRun summary] }

/-- The B→A block of step 4 of `run()` (`engine.ts` lines 269-285): when the
mapped changeset is non-empty, push it to side A, record the counts, install
the direction's links; a push error propagates to the catch block. -/
def runDirBtoA (runId : String) (cfg : EngineCfg) (adA : AdapterImpl α)
    (changesBtoA : ChangeSetM) (linkMapBtoA : List (String × String))
    (nextCursorA nextCursorB : CursorM) (stats : Stats) (sa : α) (sb : β)
    (li : LinkIndexState) (tr : List Ev) : RunResult α β :=
  if 0 < changesBtoA.upserts.length ∨ 0 < changesBtoA.deletes.length then
    match pushChanges adA Side.a changesBtoA cfg.batchSizeA cfg.maxAttempts
        cfg.backoffSec sa stats tr with
    | (.error e, sa', stats', tr') => runCatch runId cfg e stats' sa' sb li tr'
    | (.ok _, sa', stats', tr') =>
        let stats2 := { stats' with
          upsertsBtoA := changesBtoA.upserts.length
          deletesBtoA := changesBtoA.deletes.length }
        let inst := installLinks li tr' linkMapBtoA
        runPersist runId cfg nextCursorA nextCursorB stats2 sa' sb inst.1
          inst.2
  else
    runPersist runId cfg nextCursorA nextCursorB stats sa sb li tr

/-- The A→B block of step 4 of `run()` (`engine.ts` lines 251-267), followed
by the B→A block. -/
def runDirAtoB (runId : String) (cfg : EngineCfg) (adA : AdapterImpl α)
    (adB : AdapterImpl β) (changesAtoB changesBtoA : ChangeSetM)
    (linkMapAtoB linkMapBtoA : List (String × String))
    (nextCursorA nextCursorB : CursorM) (stats : Stats) (sa : α) (sb : β)
    (li : LinkIndexState) (tr : List Ev) : RunResult α β :=
  if 0 < changesAtoB.upserts.length ∨ 0 < changesAtoB.deletes.length then
    match pushChanges adB Side.b changesAtoB cfg.batchSizeB cfg.maxAttempts
        cfg.backoffSec sb stats tr with
    | (.error e, sb', stats', tr') => runCatch runId cfg e stats' sa sb' li tr'
    | (.ok _, sb', stats', tr') =>
        let stats2 := { stats' with
          upsertsAtoB := changesAtoB.upserts.length
          deletesAtoB := changesAtoB.deletes.length }
        let inst := installLinks li tr' linkMapAtoB
        runDirBtoA runId cfg adA changesBtoA linkMapBtoA nextCursorA
          nextCursorB stats2 sa sb' inst.1 inst.2
  else
    runDirBtoA runId cfg adA changesBtoA linkMapBtoA nextCursorA nextCursorB
      stats sa sb li tr

/-- Embedding of `SyncEngine.run` (`engine.ts` lines 164-336): the disabled
preflight (whose summary is returned without `insertRun`), the two pulls
(either failure pushes a side-identifying message and throws), the two
transform passes sharing one `pushedThisCycle` set, the two push blocks, and
cursor/summary persistence. `runId` is the value of `generateRunId`
(wall-clock plus randomness, taken as a parameter). -/
def runModel (dp : String → Option Int) (cfg : EngineCfg)
    (mapAtoB mapBtoA : Rec → Except String Rec) (adA : AdapterImpl α)
    (adB : AdapterImpl β) (runId : String) (sa : α) (sb : β)
    (li : LinkIndexState) : RunResult α β :=
  if isJobDisabledM li cfg.jobId then
    let summary : RunSummaryM :=
      { runId := runId, jobId := cfg.jobId, status := .failed,
        summaryJson := { reason := some "job_disabled" } }
    { summary := summary, stA := sa, stB := sb, li := li, trace := [] }
  else
    let cursorA := loadCursorM li cfg.jobId cfg.sideKeyA
    let cursorB := loadCursorM li cfg.jobId cfg.sideKeyB
    let pullA := adA.getUpdates sa cursorA
    let tr0 := [Ev.getUpdates Side.a]
    match pullA.1 with
    | .error e =>
        let msg := "Failed to get updates from side A: " ++ e
        runCatch runId cfg msg { errors := [msg] } pullA.2 sb li tr0
    | .ok resA =>
        let pullB := adB.getUpdates sb cursorB
        let tr1 := tr0 ++ [Ev.getUpdates Side.b]
        match pullB.1 with
        | .error e =>
            let msg := "Failed to get updates from side B: " ++ e
            runCatch runId cfg msg { errors := [msg] } pullA.2 pullB.2 li tr1
        | .ok resB =>
            let accA := transformAndDedup dp cfg.policy mapAtoB li resA.1 [] {}
            let accB := transformAndDedup dp cfg.policy mapBtoA li resB.1
              accA.pushed accA.stats
            runDirAtoB runId cfg adA adB
              { upserts := accA.upserts, deletes := accA.deletes }
              { upserts := accB.upserts, deletes := accB.deletes }
              accA.linkMap accB.linkMap resA.2 resB.2 accB.stats
              pullA.2 pullB.2 li tr1

/-- State of `InMemoryAdapter`
(`packages/adapters/src/in-memory-adapter.ts`): the `records` map (keyed by
id, insertion-ordered) and the `deletedIds` set. The unused `cursorPosition`
field is dropped. -/
structure AdapterState where
  records : List Rec
  deletedIds : List String
deriving DecidableEq, Repr

/-- Modelling `records.set(record.id, record)`: replace in place when the id
is present, append otherwise. -/
def jsRecSet : List Rec → Rec → List Rec
  | [], r => [r]
  | x :: xs, r => if x.id == r.id then r :: xs else x :: jsRecSet xs r

/-- Modelling `records.delete(id)`. -/
def jsRecDelete : List Rec → String → List Rec
  | [], _ => []
  | x :: xs, i => if x.id == i then xs else x :: jsRecDelete xs i

/-- The adapter's own `extractTimestamp` tries the engine's priority list plus
`createdAt` and `created_at` (`in-memory-adapter.ts` lines 115-148). -/
def adapterExtractTimestamp (dp : String → Option Int) (r : Rec) :
    Option Int :=
  extractTimestampGo dp r (timestampFields ++ ["createdAt", "created_at"])

/-- Model of `String.prototype.localeCompare` as code-point comparison
(locale sensitivity is environment behaviour; the theorems below only use
that the comparator induces a permutation). -/
def localeCompareM (a b : String) : Int :=
  match compare a b with
  | .lt => -1
  | .eq => 0
  | .gt => 1

/-- The sort comparator of `InMemoryAdapter.getUpdates` (lines 56-64):
timestamp difference when both records have one, id comparison otherwise. -/
def recCompare (dp : String → Option Int) (a b : Rec) : Int :=
  match adapterExtractTimestamp dp a, adapterExtractTimestamp dp b with
  | some ta, some tb => ta - tb
  | _, _ => localeCompareM a.id b.id

/-- Modelling `parseInt(s, 10)` on the cursor strings the adapter produces:
the decimal value of the leading digit prefix; an unparsable cursor gives
`NaN`, which `Array.prototype.slice` then treats as 0. -/
def jsParseIntNat (s : String) : Nat :=
  (s.data.takeWhile Char.isDigit).foldl
    (fun n c => n * 10 + (c.toNat - 48)) 0

/-- Embedding of `InMemoryAdapter.getUpdates` (`in-memory-adapter.ts` lines
50-88): stable-sort all records by the comparator, return the suffix past the
cursor position together with the pending deleted ids (which are cleared),
and a next cursor holding the total record count. `Array.prototype.sort` is an
engine-supplied stable sort; it is modelled by insertion sort, which realises
the same stable-sort contract. -/
def inMemGetUpdates (dp : String → Option Int) (st : AdapterState)
    (cursor : CursorM) : (ChangeSetM × CursorM) × AdapterState :=
  let startPosition :=
    match truthyStr cursor.value with
    | some s => jsParseIntNat s
    | none => 0
  let sorted := st.records.insertionSort (fun a b => recCompare dp a b ≤ 0)
  (({ upserts := sorted.drop startPosition, deletes := st.deletedIds },
    { value := some (toString sorted.length) }),
   { st with deletedIds := [] })

/-- Embedding of `InMemoryAdapter.applyChanges` (lines 93-103): upserts then
deletes against the records map. -/
def inMemApplyChanges (st : AdapterState) (cs : ChangeSetM) : AdapterState :=
  { st with records :=
      cs.deletes.foldl jsRecDelete (cs.upserts.foldl jsRecSet st.records) }

/-- The in-memory adapter as an `AdapterImpl`; neither operation throws. -/
def inMemAdapter (dp : String → Option Int) : AdapterImpl AdapterState where
  getUpdates := fun st c =>
    let r := inMemGetUpdates dp st c
    (.ok r.1, r.2)
  applyChanges := fun st cs => (.ok (), inMemApplyChanges st cs)

/-! Basic lemmas about the JS `Map` model. -/

theorem jsGet_nil (k : String) : jsGet ([] : List (String × α)) k = none := rfl

theorem jsGet_cons (k' : String) (v' : α) (m : List (String × α)) (k : String) :
    jsGet ((k', v') :: m) k = if k' = k then some v' else jsGet m k := by
  by_cases h : k' = k
  · subst h
    simp [jsGet]
  · rw [if_neg h]
    show jsGet ((k', v') :: m) k = jsGet m k
    simp only [jsGet]
    rw [List.find?_cons_of_neg _ (by simp [h])]

theorem jsGet_jsSet (m : List (String × α)) (k : String) (v : α) (x : String) :
    jsGet (jsSet m k v) x = if x = k then some v else jsGet m x := by
  induction m with
  | nil =>
      show jsGet [(k, v)] x = _
      rw [jsGet_cons]
      by_cases h : x = k
      · simp [h]
      · simp [h, Ne.symm h]
  | cons p rest ih =>
      obtain ⟨k', v'⟩ := p
      simp only [jsSet]
      by_cases hk : k' = k
      · subst hk
        simp only [beq_self_eq_true, if_true]
        rw [jsGet_cons, jsGet_cons]
        by_cases hx : x = k'
        · simp [hx]
        · simp [hx, Ne.symm hx]
      · rw [if_neg (by simp [hk])]
        rw [jsGet_cons, jsGet_cons]
        by_cases hx : k' = x
        · subst hx
          simp [hk]
        · simp [hx, ih]

theorem jsGet_jsDelete_ne (m : List (String × α)) (k x : String) (h : x ≠ k) :
    jsGet (jsDelete m k) x = jsGet m x := by
  induction m with
  | nil => rfl
  | cons p rest ih =>
      obtain ⟨k', v'⟩ := p
      simp only [jsDelete]
      by_cases hk : k' = k
      · subst hk
        rw [if_pos (by simp), jsGet_cons, if_neg (fun e => h e.symm)]
      · rw [if_neg (by simp [hk]), jsGet_cons, jsGet_cons, ih]

/-- Duplicate-freedom of the keys of a JS map model; JS `Map` objects have it
by construction. -/
def NodupKeys (m : List (String × α)) : Prop := (m.map Prod.fst).Nodup

theorem nodupKeys_nil : NodupKeys ([] : List (String × α)) := by
  simp [NodupKeys]

theorem jsGet_eq_none_of_not_mem_keys (m : List (String × α)) (k : String)
    (h : k ∉ m.map Prod.fst) : jsGet m k = none := by
  induction m with
  | nil => rfl
  | cons p rest ih =>
      obtain ⟨k', v'⟩ := p
      simp only [List.map_cons, List.mem_cons] at h
      push_neg at h
      rw [jsGet_cons, if_neg (Ne.symm h.1)]
      exact ih h.2

theorem jsGet_jsDelete_self (m : List (String × α)) (k : String)
    (h : NodupKeys m) : jsGet (jsDelete m k) k = none := by
  induction m with
  | nil => rfl
  | cons p rest ih =>
      obtain ⟨k', v'⟩ := p
      simp only [NodupKeys, List.map_cons, List.nodup_cons] at h
      simp only [jsDelete]
      by_cases hk : k' = k
      · subst hk
        rw [if_pos (by simp)]
        exact jsGet_eq_none_of_not_mem_keys rest k' h.1
      · rw [if_neg (by simp [hk]), jsGet_cons, if_neg hk]
        exact ih h.2

theorem keys_jsSet (m : List (String × α)) (k : String) (v : α) :
    (jsSet m k v).map Prod.fst =
      if k ∈ m.map Prod.fst then m.map Prod.fst
      else m.map Prod.fst ++ [k] := by
  induction m with
  | nil => simp [jsSet]
  | cons p rest ih =>
      obtain ⟨k', v'⟩ := p
      simp only [jsSet]
      by_cases hk : k' = k
      · subst hk
        simp
      · rw [if_neg (by simp [hk])]
        simp only [List.map_cons, ih]
        by_cases hmem : k ∈ rest.map Prod.fst
        · simp [hmem]
        · rw [if_neg hmem, if_neg (by simp [hmem, Ne.symm hk])]
          simp

theorem nodupKeys_jsSet (m : List (String × α)) (k : String) (v : α)
    (h : NodupKeys m) : NodupKeys (jsSet m k v) := by
  unfold NodupKeys at h ⊢
  rw [keys_jsSet]
  by_cases hmem : k ∈ m.map Prod.fst
  · simpa [hmem]
  · simp [hmem, List.nodup_append, h]

theorem keys_jsDelete_sublist (m : List (String × α)) (k : String) :
    ((jsDelete m k).map Prod.fst).Sublist (m.map Prod.fst) := by
  induction m with
  | nil => simp [jsDelete]
  | cons p rest ih =>
      obtain ⟨k', v'⟩ := p
      simp only [jsDelete]
      by_cases hk : k' = k
      · subst hk
        rw [if_pos (by simp)]
        exact List.sublist_cons_self _ _
      · rw [if_neg (by simp [hk])]
        simpa using List.Sublist.cons₂ k' ih

theorem nodupKeys_jsDelete (m : List (String × α)) (k : String)
    (h : NodupKeys m) : NodupKeys (jsDelete m k) :=
  List.Nodup.sublist (keys_jsDelete_sublist m k) h

/-! Link-index invariants. -/

/-- The link index with no data, as constructed by the
`InMemoryLinkIndex` constructor. -/
def emptyLinkIndex : LinkIndexState :=
  { sourceToDest := [], destToSource := [], cursors := [], disabledJobs := [],
    runs := [] }

/-- A sequence of `upsertLink` calls. -/
def applyUpsertLinks (st : LinkIndexState) (calls : List (String × String)) :
    LinkIndexState :=
  calls.foldl (fun st c => upsertLinkM st c.1 c.2) st

/-- Symmetry of the link store: a lookup from either side yields the other. -/
def LinkSymm (st : LinkIndexState) : Prop :=
  ∀ s d, findDestM st s = some d ↔ findSourceM st d = some s

/-- Well-formedness of the link store: both maps have duplicate-free keys
(true of JS `Map`s) and are symmetric. -/
def LinkWF (st : LinkIndexState) : Prop :=
  NodupKeys st.sourceToDest ∧ NodupKeys st.destToSource ∧ LinkSymm st

theorem linkWF_empty : LinkWF emptyLinkIndex := by
  refine ⟨nodupKeys_nil, nodupKeys_nil, ?_⟩
  intro s d
  simp [findDestM, findSourceM, emptyLinkIndex, jsGet_nil]

/-- A value returned by `jsGet` is one of the map's stored values. -/
theorem jsGet_mem_snd (m : List (String × String)) (k v : String)
    (h : jsGet m k = some v) : v ∈ m.map Prod.snd := by
  induction m with
  | nil => exact Option.noConfusion h
  | cons p rest ih =>
      obtain ⟨k', v'⟩ := p
      rw [jsGet_cons] at h
      by_cases hk : k' = k
      · rw [if_pos hk] at h
        simp only [List.map_cons, List.mem_cons]
        exact Or.inl (Option.some.inj h).symm
      · rw [if_neg hk] at h
        simp only [List.map_cons, List.mem_cons]
        exact Or.inr (ih h)

theorem truthyStr_some (v : String) (h : v ≠ "") :
    truthyStr (some v) = some v := by
  simp [truthyStr, h]

/-- `Map.delete` returns a sublist of the map. -/
theorem jsDelete_sublist (m : List (String × α)) (k : String) :
    (jsDelete m k).Sublist m := by
  induction m with
  | nil => exact List.Sublist.refl _
  | cons p rest ih =>
      obtain ⟨k', v'⟩ := p
      simp only [jsDelete]
      by_cases hk : k' = k
      · rw [if_pos (by simp [hk])]
        exact List.sublist_cons_self _ _
      · rw [if_neg (by simp [hk])]
        exact List.Sublist.cons₂ _ ih

/-- All stored values of a string map are non-empty (truthy). -/
def TruthyVals (m : List (String × String)) : Prop :=
  ∀ v ∈ m.map Prod.snd, v ≠ ""

theorem truthyVals_jsDelete (m : List (String × String)) (k : String)
    (h : TruthyVals m) : TruthyVals (jsDelete m k) := by
  intro v hv
  exact h v (((jsDelete_sublist m k).map Prod.snd).subset hv)

theorem truthyVals_jsSet (m : List (String × String)) (k v : String)
    (hm : TruthyVals m) (hv : v ≠ "") : TruthyVals (jsSet m k v) := by
  induction m with
  | nil =>
      intro x hx
      simp only [jsSet, List.map_cons, List.map_nil, List.mem_singleton] at hx
      exact hx ▸ hv
  | cons p rest ih =>
      obtain ⟨k', v'⟩ := p
      simp only [jsSet]
      by_cases hk : k' = k
      · rw [if_pos (by simp [hk])]
        intro x hx
        simp only [List.map_cons, List.mem_cons] at hx
        rcases hx with hx | hx
        · exact hx ▸ hv
        · exact hm x (by simp [hx])
      · rw [if_neg (by simp [hk])]
        intro x hx
        simp only [List.map_cons, List.mem_cons] at hx
        rcases hx with hx | hx
        · exact hm x (by simp [hx])
        · exact ih (fun y hy => hm y (by simp [hy])) x hx

/-- Both maps of a link index hold only truthy ids — the states reachable by
`upsertLink` calls whose ids are all non-empty. -/
def LinkTruthy (st : LinkIndexState) : Prop :=
  TruthyVals st.sourceToDest ∧ TruthyVals st.destToSource

theorem linkTruthy_empty : LinkTruthy emptyLinkIndex :=
  ⟨fun v hv => by simp [emptyLinkIndex] at hv,
   fun v hv => by simp [emptyLinkIndex] at hv⟩

/-- Proof normal form of `upsertLinkM` on truthy states: every old binding
the guards examine is non-empty, so the truthiness checks are transparent. -/
def upsertLinkPlain (st : LinkIndexState) (sourceId destId : String) :
    LinkIndexState :=
  let destToSource1 :=
    match jsGet st.sourceToDest sourceId with
    | some oldDest => jsDelete st.destToSource oldDest
    | none => st.destToSource
  let sourceToDest1 :=
    match jsGet destToSource1 destId with
    | some oldSource => jsDelete st.sourceToDest oldSource
    | none => st.sourceToDest
  { st with
    sourceToDest := jsSet sourceToDest1 sourceId destId
    destToSource := jsSet destToSource1 destId sourceId }

theorem upsertLinkM_eq_plain (st : LinkIndexState) (s d : String)
    (ht : LinkTruthy st) : upsertLinkM st s d = upsertLinkPlain st s d := by
  unfold upsertLinkM upsertLinkPlain
  rcases hod : jsGet st.sourceToDest s with _ | od
  · simp only [hod, truthyStr]
    rcases hos : jsGet st.destToSource d with _ | os
    · simp only [hos, truthyStr]
    · have hosne : os ≠ "" := ht.2 os (jsGet_mem_snd _ _ _ hos)
      simp [hos, hosne]
  · simp only [hod, truthyStr_some od (ht.1 od (jsGet_mem_snd _ _ _ hod))]
    rcases hos : jsGet (jsDelete st.destToSource od) d with _ | os
    · simp only [hos, truthyStr]
    · have hosne : os ≠ "" :=
        ht.2 os (((jsDelete_sublist st.destToSource od).map
          Prod.snd).subset (jsGet_mem_snd _ _ _ hos))
      simp only [hos, truthyStr_some os hosne]

theorem linkTruthy_upsertLink (st : LinkIndexState) (s d : String)
    (ht : LinkTruthy st) (hs : s ≠ "") (hd : d ≠ "") :
    LinkTruthy (upsertLinkM st s d) := by
  rw [upsertLinkM_eq_plain st s d ht]
  unfold upsertLinkPlain
  constructor
  · dsimp only
    apply truthyVals_jsSet _ _ _ _ hd
    rcases hod : jsGet st.sourceToDest s with _ | od <;> simp only [hod]
    · rcases hos : jsGet st.destToSource d with _ | os <;> simp only [hos]
      · exact ht.1
      · exact truthyVals_jsDelete _ _ ht.1
    · rcases hos : jsGet (jsDelete st.destToSource od) d with _ | os <;>
        simp only [hos]
      · exact ht.1
      · exact truthyVals_jsDelete _ _ ht.1
  · dsimp only
    apply truthyVals_jsSet _ _ _ _ hs
    rcases hod : jsGet st.sourceToDest s with _ | od <;> simp only [hod]
    · exact ht.2
    · exact truthyVals_jsDelete _ _ ht.2

theorem findDest_upsertLink (st : LinkIndexState) (s d x : String)
    (h : LinkWF st) (ht : LinkTruthy st) :
    findDestM (upsertLinkM st s d) x =
      if x = s then some d
      else if findDestM st x = some d then none
      else findDestM st x := by
  obtain ⟨h1, h2, hsym⟩ := h
  rw [upsertLinkM_eq_plain st s d ht]
  by_cases hx : x = s
  · subst hx
    rw [if_pos rfl]
    simp only [upsertLinkPlain, findDestM]
    rw [jsGet_jsSet, if_pos rfl]
  · rw [if_neg hx]
    simp only [upsertLinkPlain, findDestM]
    rw [jsGet_jsSet, if_neg hx]
    rcases hod : jsGet st.sourceToDest s with _ | od
    · simp only [hod]
      rcases hos : jsGet st.destToSource d with _ | os
      · simp only [hos]
        have hne : ¬jsGet st.sourceToDest x = some d := by
          intro hc
          have := (hsym x d).mp hc
          rw [findSourceM] at this
          rw [this] at hos
          exact Option.noConfusion hos
        rw [if_neg hne]
      · simp only [hos]
        have hgos : jsGet st.sourceToDest os = some d :=
          (hsym os d).mpr hos
        by_cases hxo : x = os
        · subst hxo
          rw [jsGet_jsDelete_self _ _ h1, if_pos hgos]
        · rw [jsGet_jsDelete_ne _ _ _ hxo]
          have hne : ¬jsGet st.sourceToDest x = some d := by
            intro hc
            have := (hsym x d).mp hc
            rw [findSourceM, hos] at this
            exact hxo (Option.some.inj this).symm
          rw [if_neg hne]
    · simp only [hod]
      have hgod : jsGet st.destToSource od = some s := (hsym s od).mp hod
      by_cases hdod : d = od
      · subst hdod
        rw [jsGet_jsDelete_self _ _ h2]
        have hne : ¬jsGet st.sourceToDest x = some d := by
          intro hc
          have := (hsym x d).mp hc
          rw [findSourceM, hgod] at this
          exact hx (Option.some.inj this.symm)
        rw [if_neg hne]
      · rw [jsGet_jsDelete_ne _ _ _ hdod]
        rcases hos : jsGet st.destToSource d with _ | os
        · have hne : ¬jsGet st.sourceToDest x = some d := by
            intro hc
            have := (hsym x d).mp hc
            rw [findSourceM] at this
            rw [this] at hos
            exact Option.noConfusion hos
          rw [if_neg hne]
        · have hgos : jsGet st.sourceToDest os = some d :=
            (hsym os d).mpr hos
          by_cases hxo : x = os
          · subst hxo
            rw [jsGet_jsDelete_self _ _ h1, if_pos hgos]
          · rw [jsGet_jsDelete_ne _ _ _ hxo]
            have hne : ¬jsGet st.sourceToDest x = some d := by
              intro hc
              have := (hsym x d).mp hc
              rw [findSourceM, hos] at this
              exact hxo (Option.some.inj this).symm
            rw [if_neg hne]

theorem findSource_upsertLink (st : LinkIndexState) (s d y : String)
    (h : LinkWF st) (ht : LinkTruthy st) :
    findSourceM (upsertLinkM st s d) y =
      if y = d then some s
      else if findSourceM st y = some s then none
      else findSourceM st y := by
  obtain ⟨h1, h2, hsym⟩ := h
  rw [upsertLinkM_eq_plain st s d ht]
  by_cases hy : y = d
  · subst hy
    rw [if_pos rfl]
    simp only [upsertLinkPlain, findSourceM]
    rw [jsGet_jsSet, if_pos rfl]
  · rw [if_neg hy]
    simp only [upsertLinkPlain, findSourceM]
    rw [jsGet_jsSet, if_neg hy]
    rcases hod : jsGet st.sourceToDest s with _ | od
    · simp only [hod]
      have hne : ¬jsGet st.destToSource y = some s := by
        intro hc
        have := (hsym s y).mpr hc
        rw [findDestM] at this
        rw [this] at hod
        exact Option.noConfusion hod
      rw [if_neg hne]
    · simp only [hod]
      have hgod : jsGet st.destToSource od = some s := (hsym s od).mp hod
      by_cases hyo : y = od
      · subst hyo
        rw [jsGet_jsDelete_self _ _ h2, if_pos hgod]
      · rw [jsGet_jsDelete_ne _ _ _ hyo]
        have hne : ¬jsGet st.destToSource y = some s := by
          intro hc
          have := (hsym s y).mpr hc
          rw [findDestM, hod] at this
          exact hyo (Option.some.inj this).symm
        rw [if_neg hne]

theorem linkWF_upsertLink (st : LinkIndexState) (s d : String)
    (h : LinkWF st) (ht : LinkTruthy st) : LinkWF (upsertLinkM st s d) := by
  obtain ⟨h1, h2, hsym⟩ := h
  refine ⟨?_, ?_, ?_⟩
  · rw [upsertLinkM_eq_plain st s d ht]
    simp only [upsertLinkPlain]
    rcases jsGet st.sourceToDest s with _ | od <;>
      rcases jsGet (st.destToSource) d with _ | os <;>
      first
        | exact nodupKeys_jsSet _ _ _ h1
        | exact nodupKeys_jsSet _ _ _ (nodupKeys_jsDelete _ _ h1)
        | skip
    all_goals
      rcases jsGet (jsDelete st.destToSource _) d with _ | os2 <;>
        first
          | exact nodupKeys_jsSet _ _ _ h1
          | exact nodupKeys_jsSet _ _ _ (nodupKeys_jsDelete _ _ h1)
  · rw [upsertLinkM_eq_plain st s d ht]
    simp only [upsertLinkPlain]
    rcases jsGet st.sourceToDest s with _ | od <;>
      first
        | exact nodupKeys_jsSet _ _ _ h2
        | exact nodupKeys_jsSet _ _ _ (nodupKeys_jsDelete _ _ h2)
  · intro x y
    rw [findDest_upsertLink st s d x ⟨h1, h2, hsym⟩ ht,
      findSource_upsertLink st s d y ⟨h1, h2, hsym⟩ ht]
    by_cases hx : x = s
    · subst hx
      by_cases hyd : y = d
      · subst hyd
        simp
      · rw [if_pos rfl, if_neg hyd]
        constructor
        · intro hc
          exact absurd (Option.some.inj hc).symm hyd
        · intro hc
          by_cases hg : findSourceM st y = some x
          · rw [if_pos hg] at hc
            exact Option.noConfusion hc
          · rw [if_neg hg] at hc
            exact absurd hc hg
    · rw [if_neg hx]
      by_cases hyd : y = d
      · subst hyd
        constructor
        · intro hc
          by_cases hg : findDestM st x = some y
          · rw [if_pos hg] at hc
            exact Option.noConfusion hc
          · rw [if_neg hg] at hc
            exact absurd hc hg
        · intro hc
          rw [if_pos rfl] at hc
          exact absurd (Option.some.inj hc).symm hx
      · rw [if_neg hyd]
        constructor
        · intro hc
          by_cases hg : findDestM st x = some d
          · rw [if_pos hg] at hc
            exact Option.noConfusion hc
          · rw [if_neg hg] at hc
            have hs := (hsym x y).mp hc
            have hne : ¬findSourceM st y = some s := by
              intro he
              have hsx : findSourceM st y = some x := (hsym x y).mp hc
              rw [he] at hsx
              exact hx (Option.some.inj hsx).symm
            rw [if_neg hne]
            exact hs
        · intro hc
          by_cases hg : findSourceM st y = some s
          · rw [if_pos hg] at hc
            exact Option.noConfusion hc
          · rw [if_neg hg] at hc
            have hd := (hsym x y).mpr hc
            have hne : ¬findDestM st x = some d := by
              intro he
              have hdx : findDestM st x = some y := (hsym x y).mpr hc
              rw [he] at hdx
              exact hyd (Option.some.inj hdx).symm
            rw [if_neg hne]
            exact hd

theorem linkWF_applyUpsertLinks (st : LinkIndexState) (h : LinkWF st)
    (ht : LinkTruthy st) (calls : List (String × String))
    (hc : ∀ c ∈ calls, c.1 ≠ "" ∧ c.2 ≠ "") :
    LinkWF (applyUpsertLinks st calls) ∧
    LinkTruthy (applyUpsertLinks st calls) := by
  induction calls generalizing st with
  | nil => exact ⟨h, ht⟩
  | cons c rest ih =>
      have hc0 := hc c (by simp)
      exact ih (upsertLinkM st c.1 c.2)
        (linkWF_upsertLink st c.1 c.2 h ht)
        (linkTruthy_upsertLink st c.1 c.2 ht hc0.1 hc0.2)
        (fun c2 h2 => hc c2 (by simp [h2]))

/-- C7 (amended): the claim holds for every call history whose source and
destination ids are all non-empty. The cleanup steps of `upsertLink` sit
behind the JS truthiness guards `if (oldDest)` / `if (oldSource)`, which skip
a falsy (empty-string) old binding; histories with truthy ids never install
such a binding, and for them the index stays symmetric and a replacing
`upsertLink s d` leaves no half-links: the new pair resolves both ways while
the displaced partners `d'` and `s'` resolve to nothing. -/
theorem c7_link_symmetry_and_no_half_links :
    (∀ calls : List (String × String),
      (∀ c ∈ calls, c.1 ≠ "" ∧ c.2 ≠ "") →
      LinkSymm (applyUpsertLinks emptyLinkIndex calls)) ∧
    (∀ (calls : List (String × String)) (s d : String),
      (∀ c ∈ calls, c.1 ≠ "" ∧ c.2 ≠ "") →
      findDestM (upsertLinkM (applyUpsertLinks emptyLinkIndex calls) s d) s =
          some d ∧
      findSourceM (upsertLinkM (applyUpsertLinks emptyLinkIndex calls) s d) d =
          some s ∧
      (∀ d', findDestM (applyUpsertLinks emptyLinkIndex calls) s = some d' →
        d' ≠ d →
        findSourceM (upsertLinkM (applyUpsertLinks emptyLinkIndex calls) s d)
          d' = none) ∧
      (∀ s', findSourceM (applyUpsertLinks emptyLinkIndex calls) d = some s' →
        s' ≠ s →
        findDestM (upsertLinkM (applyUpsertLinks emptyLinkIndex calls) s d)
          s' = none)) := by
  constructor
  · intro calls hc
    exact (linkWF_applyUpsertLinks emptyLinkIndex linkWF_empty linkTruthy_empty
      calls hc).1.2.2
  · intro calls s d hc
    obtain ⟨hwf, htr⟩ := linkWF_applyUpsertLinks emptyLinkIndex linkWF_empty
      linkTruthy_empty calls hc
    obtain ⟨h1, h2, hsym⟩ := hwf
    refine ⟨?_, ?_, ?_, ?_⟩
    · rw [findDest_upsertLink _ s d s ⟨h1, h2, hsym⟩ htr, if_pos rfl]
    · rw [findSource_upsertLink _ s d d ⟨h1, h2, hsym⟩ htr, if_pos rfl]
    · intro d' hold hne
      rw [findSource_upsertLink _ s d d' ⟨h1, h2, hsym⟩ htr, if_neg hne,
        if_pos ((hsym s d').mp hold)]
    · intro s' hold hne
      rw [findDest_upsertLink _ s d s' ⟨h1, h2, hsym⟩ htr, if_neg hne,
        if_pos ((hsym s' d).mpr hold)]

/-- Witness for C7 at a concrete replacement with truthy ids: installing the
link `("s", "d1")` and then re-upserting `("s", "d2")` leaves the displaced
destination `"d1"` unreachable. -/
theorem c7_witness :
    findSourceM
      (upsertLinkM (applyUpsertLinks emptyLinkIndex [("s", "d1")]) "s" "d2")
      "d1" = none :=
  (c7_link_symmetry_and_no_half_links.2 [("s", "d1")] "s" "d2"
    (by decide)).2.2.1 "d1" (by decide) (by decide)

/-- Counterexample to C7 as stated: the truthiness guards skip the cleanup of
a falsy old binding. After `upsertLink("s", "")` followed by
`upsertLink("s", "d")`, the stale binding of the empty-string destination
survives: `findSource("") = "s"` while `findDest("s") = "d"` — an asymmetric
half-link, so `LinkSymm` fails for this two-call history. -/
theorem c7_counterexample :
    findSourceM (applyUpsertLinks emptyLinkIndex [("s", ""), ("s", "d")])
        "" = some "s" ∧
    findDestM (applyUpsertLinks emptyLinkIndex [("s", ""), ("s", "d")])
        "s" = some "d" ∧
    ¬ LinkSymm (applyUpsertLinks emptyLinkIndex [("s", ""), ("s", "d")]) := by
  refine ⟨by decide, by decide, ?_⟩
  intro hsym
  have h1 : findSourceM (applyUpsertLinks emptyLinkIndex
      [("s", ""), ("s", "d")]) "" = some "s" := by decide
  have h2 := (hsym "s" "").mpr h1
  have h3 : findDestM (applyUpsertLinks emptyLinkIndex
      [("s", ""), ("s", "d")]) "s" = some "d" := by decide
  rw [h2] at h3
  exact absurd (Option.some.inj h3) (by decide)

/-! Conflict handling. -/

theorem handleConflict_manual (dp : String → Option Int) (rec : Rec)
    (stats : Stats) :
    handleConflict dp .manual rec stats =
      (true, { stats with conflicts := stats.conflicts + 1 }) := rfl

theorem handleConflict_lww (dp : String → Option Int) (rec : Rec)
    (stats : Stats) :
    handleConflict dp .lastWriterWins rec stats = (false, stats) := by
  unfold handleConflict
  rcases extractTimestamp dp rec with _ | t <;> rfl

/-- A single linked (conflicting) upsert under the `manual` policy: counted
and dropped. -/
theorem transform_single_manual (dp : String → Option Int)
    (mapper : Rec → Except String Rec) (li : LinkIndexState)
    (rec destRec : Rec) (d : String) (stats : Stats)
    (hmap : mapper rec = .ok destRec)
    (hecho : ¬findSourceM li destRec.id = some rec.id)
    (hlink : truthyStr (findDestM li rec.id) = some d) :
    transformAndDedup dp .manual mapper li
      { upserts := [rec], deletes := [] } [] stats =
      { upserts := [], deletes := [], linkMap := [], pushed := [],
        stats := { stats with conflicts := stats.conflicts + 1 } } := by
  unfold transformAndDedup
  simp only [transformUpserts, List.contains_nil, Bool.false_eq_true,
    if_false, hmap, if_neg hecho, hlink, handleConflict_manual]
  rfl

/-- A single linked (conflicting) upsert under `last_writer_wins`: always
emitted with the existing destination id, whatever the timestamps. -/
theorem transform_single_lww (dp : String → Option Int)
    (mapper : Rec → Except String Rec) (li : LinkIndexState)
    (rec destRec : Rec) (d : String) (stats : Stats)
    (hmap : mapper rec = .ok destRec)
    (hecho : ¬findSourceM li destRec.id = some rec.id)
    (hlink : truthyStr (findDestM li rec.id) = some d) :
    transformAndDedup dp .lastWriterWins mapper li
      { upserts := [rec], deletes := [] } [] stats =
      { upserts := [destRec], deletes := [], linkMap := [(rec.id, d)],
        pushed := [rec.id], stats := stats } := by
  unfold transformAndDedup
  simp only [transformUpserts, List.contains_nil, Bool.false_eq_true,
    if_false, hmap, if_neg hecho, hlink, handleConflict_lww]
  rfl

/-! Concrete scenario material shared by several claims. -/

/-- Identity mapper, as the engine tests' IdentityMapper. -/
def idMapper : Rec → Except String Rec := fun r => .ok r

/-- A date parser that accepts nothing; the concrete records below carry
numeric timestamps so it is never consulted. -/
def noParse : String → Option Int := fun _ => none

/-- A stub adapter whose pull always returns the given changeset and cursor
and whose pushes succeed, like the spies in the engine tests. -/
def constAdapter (changes : ChangeSetM) (next : CursorM) : AdapterImpl Unit
    where
  getUpdates := fun _ _ => (.ok (changes, next), ())
  applyChanges := fun _ _ => (.ok (), ())

/-- Source-side record of the LWW conflict scenario (spec scenario 5), with
the older timestamp. -/
def lwwSrcRec : Rec := { id := "a1", fields := [("updatedAt", .num 2000)] }

/-- Destination-side record of the LWW conflict scenario, with the newer
timestamp. -/
def lwwDestRec : Rec := { id := "b1", fields := [("updatedAt", .num 3000)] }

/-- Link index with the link a1 ↔ b1 already installed. -/
def lwwLinkIndex : LinkIndexState :=
  applyUpsertLinks emptyLinkIndex [("a1", "b1")]

/-- C1: the claim that `last_writer_wins` skips the source when
`source_ts < dest_ts` fails on the code — `handleConflict` never obtains a
destination timestamp and proceeds in every case, so a conflicting source
upsert is always emitted. This theorem states the amended behaviour: the
resolver always answers "propagate" under `last_writer_wins`, and a linked
source upsert passing the echo and mapper guards is emitted with the existing
link id regardless of timestamps. -/
theorem c1_lww_source_always_wins :
    (∀ (dp : String → Option Int) (rec : Rec) (stats : Stats),
      handleConflict dp .lastWriterWins rec stats = (false, stats)) ∧
    (∀ (dp : String → Option Int) (mapper : Rec → Except String Rec)
      (li : LinkIndexState) (rec destRec : Rec) (d : String) (stats : Stats),
      mapper rec = .ok destRec →
      ¬findSourceM li destRec.id = some rec.id →
      truthyStr (findDestM li rec.id) = some d →
      transformAndDedup dp .lastWriterWins mapper li
        { upserts := [rec], deletes := [] } [] stats =
        { upserts := [destRec], deletes := [], linkMap := [(rec.id, d)],
          pushed := [rec.id], stats := stats }) :=
  ⟨handleConflict_lww,
   fun dp mapper li rec destRec d stats hmap hecho hlink =>
     transform_single_lww dp mapper li rec destRec d stats hmap hecho hlink⟩

/-- Witness for C1 at the concrete scenario-5 input. -/
theorem c1_witness :
    transformAndDedup noParse .lastWriterWins idMapper lwwLinkIndex
      { upserts := [lwwSrcRec], deletes := [] } [] {} =
      { upserts := [lwwSrcRec], deletes := [],
        linkMap := [(lwwSrcRec.id, "b1")], pushed := [lwwSrcRec.id],
        stats := {} } :=
  c1_lww_source_always_wins.2 noParse idMapper lwwLinkIndex lwwSrcRec
    lwwSrcRec "b1" {} rfl (by decide) (by decide)

/-- Counterexample for C1 as stated: in the scenario of spec test 5 —
link a1 ↔ b1 installed, source timestamp 2000 strictly below the conflicting
destination record's 3000 — a full `last_writer_wins` cycle still pushes the
source record (`upsertsAtoB = 1`) instead of skipping it. -/
theorem c1_counterexample :
    extractTimestamp noParse lwwSrcRec = some 2000 ∧
    extractTimestamp noParse lwwDestRec = some 3000 ∧
    findDestM lwwLinkIndex "a1" = some "b1" ∧
    (runModel noParse { jobId := "job" } idMapper idMapper
        (constAdapter { upserts := [lwwSrcRec], deletes := [] }
          { value := some "1" })
        (constAdapter { upserts := [lwwDestRec], deletes := [] }
          { value := some "1" })
        "run" () () lwwLinkIndex).summary.summaryJson.stats.upsertsAtoB
      = 1 := by
  decide

/-! Which link-index operations the engine can emit at all. The `run` cycle
only ever issues pulls, pushes, throttles, waits, link upserts, cursor saves
and run inserts; the extended LinkIndex operations (`insertConflict`,
`incrementFailCount`, `resetFailCount`, `setJobDisabled`) are never called. -/

/-- The event kinds the engine's cycle actually issues. -/
def evEngineOp : Ev → Bool
  | .insertConflict => false
  | .incrementFailCount _ => false
  | .resetFailCount _ => false
  | .setJobDisabled _ => false
  | _ => true

/-- Extension step: an event of an extended trace is either old or allowed. -/
theorem mem_ext_allowed {tr rest : List Ev} (e : Ev)
    (he : e ∈ tr ++ rest) (hrest : ∀ x ∈ rest, evEngineOp x = true) :
    e ∈ tr ∨ evEngineOp e = true := by
  rcases List.mem_append.mp he with h | h
  · exact Or.inl h
  · exact Or.inr (hrest e h)

theorem applyWithRetryGo_trace (ad : AdapterImpl σ) (side : Side)
    (changes : ChangeSetM) (mA bS : Nat) :
    ∀ (r att : Nat) (le : Option String) (s : σ) (stats : Stats)
      (tr : List Ev),
      ∀ e ∈ (applyWithRetryGo ad side changes mA bS r att le s stats tr).2.2.2,
        e ∈ tr ∨ evEngineOp e = true := by
  intro r
  induction r with
  | zero => intro att le s stats tr e he; exact Or.inl he
  | succ r ih =>
      intro att le s stats tr e he
      simp only [applyWithRetryGo] at he
      rcases hc : (ad.applyChanges s changes).1 with err | u <;>
        simp only [hc] at he
      · by_cases hr : r > 0
        · rw [if_pos hr] at he
          rcases ih (att + 1) (some err) (ad.applyChanges s changes).2
              { stats with retries := stats.retries + 1 }
              (tr ++ [Ev.throttle side] ++ [Ev.applyChanges side changes] ++
                [Ev.wait (bS * 1000 * 2 ^ (att - 1))]) e he with h | h
          · rw [List.append_assoc, List.append_assoc] at h
            refine mem_ext_allowed e h ?_
            intro x hx
            simp only [List.mem_append, List.mem_singleton] at hx
            rcases hx with h1 | h1 | h1 <;> subst h1 <;> rfl
          · exact Or.inr h
        · rw [if_neg hr] at he
          rw [List.append_assoc] at he
          refine mem_ext_allowed e he ?_
          intro x hx
          simp only [List.mem_append, List.mem_singleton] at hx
          rcases hx with h1 | h1 <;> subst h1 <;> rfl
      · rw [List.append_assoc] at he
        refine mem_ext_allowed e he ?_
        intro x hx
        simp only [List.mem_append, List.mem_singleton] at hx
        rcases hx with h1 | h1 <;> subst h1 <;> rfl

theorem applyWithRetry_trace (ad : AdapterImpl σ) (side : Side)
    (changes : ChangeSetM) (mA bS : Nat) (s : σ) (stats : Stats)
    (tr : List Ev) :
    ∀ e ∈ (applyWithRetry ad side changes mA bS s stats tr).2.2.2,
      e ∈ tr ∨ evEngineOp e = true :=
  applyWithRetryGo_trace ad side changes mA bS mA 1 none s stats tr

theorem pushBatches_trace (ad : AdapterImpl σ) (side : Side) (mA bS : Nat) :
    ∀ (batches : List ChangeSetM) (s : σ) (stats : Stats) (tr : List Ev),
      ∀ e ∈ (pushBatches ad side mA bS batches s stats tr).2.2.2,
        e ∈ tr ∨ evEngineOp e = true := by
  intro batches
  induction batches with
  | nil => intro s stats tr e he; exact Or.inl he
  | cons b rest ih =>
      intro s stats tr e he
      simp only [pushBatches] at he
      rcases hc : applyWithRetry ad side b mA bS s stats tr with
        ⟨res, s', stats', tr'⟩
      rw [hc] at he
      have hsub : ∀ e2 ∈ tr', e2 ∈ tr ∨ evEngineOp e2 = true := by
        intro e2 he2
        have := applyWithRetry_trace ad side b mA bS s stats tr e2
        rw [hc] at this
        exact this he2
      rcases res with err | u
      · exact hsub e he
      · rcases ih s' stats' tr' e he with h | h
        · exact hsub e h
        · exact Or.inr h

theorem pushChanges_trace (ad : AdapterImpl σ) (side : Side)
    (changes : ChangeSetM) (bSz mA bS : Nat) (s : σ) (stats : Stats)
    (tr : List Ev) :
    ∀ e ∈ (pushChanges ad side changes bSz mA bS s stats tr).2.2.2,
      e ∈ tr ∨ evEngineOp e = true :=
  pushBatches_trace ad side mA bS _ s stats tr

theorem installLinks_trace :
    ∀ (lm : List (String × String)) (li : LinkIndexState) (tr : List Ev),
      ∀ e ∈ (installLinks li tr lm).2, e ∈ tr ∨ evEngineOp e = true := by
  intro lm
  induction lm with
  | nil => intro li tr e he; exact Or.inl he
  | cons c rest ih =>
      intro li tr e he
      rcases c with ⟨s0, d0⟩
      simp only [installLinks] at he
      rcases ih (upsertLinkM li s0 d0) (tr ++ [Ev.upsertLink s0 d0]) e he
        with h | h
      · refine mem_ext_allowed e h ?_
        intro x hx
        simp only [List.mem_singleton] at hx
        subst hx
        rfl
      · exact Or.inr h

theorem runPersist_trace (runId : String) (cfg : EngineCfg)
    (ncA ncB : CursorM) (stats : Stats) (sa : α) (sb : β)
    (li : LinkIndexState) (tr : List Ev) :
    ∀ e ∈ (runPersist runId cfg ncA ncB stats sa sb li tr).trace,
      e ∈ tr ∨ evEngineOp e = true := by
  intro e he
  simp only [runPersist] at he
  rw [List.append_assoc] at he
  refine mem_ext_allowed e he ?_
  intro x hx
  simp only [List.mem_append, List.mem_cons, List.mem_singleton,
    List.not_mem_nil, or_false] at hx
  rcases hx with (h1 | h1) | h1 <;> subst h1 <;> rfl

theorem runCatch_trace (runId : String) (cfg : EngineCfg) (msg : String)
    (stats : Stats) (sa : α) (sb : β) (li : LinkIndexState) (tr : List Ev) :
    ∀ e ∈ (runCatch runId cfg msg stats sa sb li tr).trace,
      e ∈ tr ∨ evEngineOp e = true := by
  intro e he
  simp only [runCatch] at he
  refine mem_ext_allowed e he ?_
  intro x hx
  simp only [List.mem_singleton] at hx
  subst hx
  rfl

theorem runDirBtoA_trace (runId : String) (cfg : EngineCfg)
    (adA : AdapterImpl α) (chBtoA : ChangeSetM)
    (lmBtoA : List (String × String)) (ncA ncB : CursorM) (stats : Stats)
    (sa : α) (sb : β) (li : LinkIndexState) (tr : List Ev) :
    ∀ e ∈ (runDirBtoA runId cfg adA chBtoA lmBtoA ncA ncB stats sa sb li
        tr).trace,
      e ∈ tr ∨ evEngineOp e = true := by
  intro e he
  simp only [runDirBtoA] at he
  by_cases hne : 0 < chBtoA.upserts.length ∨ 0 < chBtoA.deletes.length
  · rw [if_pos hne] at he
    rcases hc : pushChanges adA Side.a chBtoA cfg.batchSizeA cfg.maxAttempts
        cfg.backoffSec sa stats tr with ⟨res, sa', stats', tr'⟩
    rw [hc] at he
    have hsub : ∀ e2 ∈ tr', e2 ∈ tr ∨ evEngineOp e2 = true := by
      intro e2 he2
      have := pushChanges_trace adA Side.a chBtoA cfg.batchSizeA
        cfg.maxAttempts cfg.backoffSec sa stats tr e2
      rw [hc] at this
      exact this he2
    rcases res with err | u
    · rcases runCatch_trace runId cfg err stats' sa' sb li tr' e he with h | h
      · exact hsub e h
      · exact Or.inr h
    · rcases runPersist_trace runId cfg ncA ncB
          { stats' with
            upsertsBtoA := chBtoA.upserts.length
            deletesBtoA := chBtoA.deletes.length } sa' sb
          (installLinks li tr' lmBtoA).1 (installLinks li tr' lmBtoA).2 e he
        with h | h
      · rcases installLinks_trace lmBtoA li tr' e h with h2 | h2
        · exact hsub e h2
        · exact Or.inr h2
      · exact Or.inr h
  · rw [if_neg hne] at he
    exact runPersist_trace runId cfg ncA ncB stats sa sb li tr e he

theorem runDirAtoB_trace (runId : String) (cfg : EngineCfg)
    (adA : AdapterImpl α) (adB : AdapterImpl β)
    (chAtoB chBtoA : ChangeSetM) (lmAtoB lmBtoA : List (String × String))
    (ncA ncB : CursorM) (stats : Stats) (sa : α) (sb : β)
    (li : LinkIndexState) (tr : List Ev) :
    ∀ e ∈ (runDirAtoB runId cfg adA adB chAtoB chBtoA lmAtoB lmBtoA ncA ncB
        stats sa sb li tr).trace,
      e ∈ tr ∨ evEngineOp e = true := by
  intro e he
  simp only [runDirAtoB] at he
  by_cases hne : 0 < chAtoB.upserts.length ∨ 0 < chAtoB.deletes.length
  · rw [if_pos hne] at he
    rcases hc : pushChanges adB Side.b chAtoB cfg.batchSizeB cfg.maxAttempts
        cfg.backoffSec sb stats tr with ⟨res, sb', stats', tr'⟩
    rw [hc] at he
    have hsub : ∀ e2 ∈ tr', e2 ∈ tr ∨ evEngineOp e2 = true := by
      intro e2 he2
      have := pushChanges_trace adB Side.b chAtoB cfg.batchSizeB
        cfg.maxAttempts cfg.backoffSec sb stats tr e2
      rw [hc] at this
      exact this he2
    rcases res with err | u
    · rcases runCatch_trace runId cfg err stats' sa sb' li tr' e he with h | h
      · exact hsub e h
      · exact Or.inr h
    · rcases runDirBtoA_trace runId cfg adA chBtoA lmBtoA ncA ncB
          { stats' with
            upsertsAtoB := chAtoB.upserts.length
            deletesAtoB := chAtoB.deletes.length } sa sb'
          (installLinks li tr' lmAtoB).1 (installLinks li tr' lmAtoB).2 e he
        with h | h
      · rcases installLinks_trace lmAtoB li tr' e h with h2 | h2
        · exact hsub e h2
        · exact Or.inr h2
      · exact Or.inr h
  · rw [if_neg hne] at he
    exact runDirBtoA_trace runId cfg adA chBtoA lmBtoA ncA ncB stats sa sb li
      tr e he

/-- Every event a `run()` cycle emits is a pull, push, throttle, wait, link
upsert, cursor save or run insert — never one of the extended LinkIndex
operations. -/
theorem runModel_trace (dp : String → Option Int) (cfg : EngineCfg)
    (mapAtoB mapBtoA : Rec → Except String Rec) (adA : AdapterImpl α)
    (adB : AdapterImpl β) (runId : String) (sa : α) (sb : β)
    (li : LinkIndexState) :
    ∀ e ∈ (runModel dp cfg mapAtoB mapBtoA adA adB runId sa sb li).trace,
      evEngineOp e = true := by
  intro e he
  simp only [runModel] at he
  by_cases hd : isJobDisabledM li cfg.jobId
  · rw [if_pos hd] at he
    simp at he
  · rw [if_neg hd] at he
    rcases hA : (adA.getUpdates sa
        (loadCursorM li cfg.jobId cfg.sideKeyA)).1 with eA | resA <;>
      simp only [hA] at he
    · rcases runCatch_trace runId cfg _ _ _ sb li _ e he with h | h
      · simp only [List.mem_singleton] at h
        subst h
        rfl
      · exact h
    · rcases hB : (adB.getUpdates sb
          (loadCursorM li cfg.jobId cfg.sideKeyB)).1 with eB | resB <;>
        simp only [hB] at he
      · rcases runCatch_trace runId cfg _ _ _ _ li _ e he with h | h
        · simp only [List.cons_append, List.nil_append, List.mem_cons,
            List.not_mem_nil, or_false] at h
          rcases h with h | h <;> subst h <;> rfl
        · exact h
      · rcases runDirAtoB_trace runId cfg adA adB _ _ _ _ resA.2 resB.2 _
            _ _ li _ e he with h | h
        · simp only [List.cons_append, List.nil_append, List.mem_cons,
            List.not_mem_nil, or_false] at h
          rcases h with h | h <;> subst h <;> rfl
        · exact h

/-- A full `manual`-policy cycle in which only the source side changed:
A reports an upsert of the linked record a1, B reports nothing. -/
def manualConflictRun : RunResult Unit Unit :=
  runModel noParse { jobId := "job", policy := .manual } idMapper idMapper
    (constAdapter { upserts := [lwwSrcRec], deletes := [] }
      { value := some "1" })
    (constAdapter { upserts := [], deletes := [] } { value := some "0" })
    "run" () () lwwLinkIndex

/-- C2: the claim that the conflict resolver fires only when the destination
changeset also contains an upsert at `existingDest` fails on the code —
`transformAndDedup` never receives the destination changeset, so the resolver
fires whenever `findDest` yields an existing link. This theorem states the
amended behaviour: for a linked source upsert passing the echo and mapper
guards, the outcome depends only on the policy — `manual` counts a conflict
and skips, `last_writer_wins` propagates — with no reference to the other
side's changes. -/
theorem c2_conflict_check_ignores_dest_changeset
    (dp : String → Option Int) (mapper : Rec → Except String Rec)
    (li : LinkIndexState) (rec destRec : Rec) (d : String) (stats : Stats)
    (hmap : mapper rec = .ok destRec)
    (hecho : ¬findSourceM li destRec.id = some rec.id)
    (hlink : truthyStr (findDestM li rec.id) = some d) :
    transformAndDedup dp .manual mapper li
        { upserts := [rec], deletes := [] } [] stats =
      { upserts := [], deletes := [], linkMap := [], pushed := [],
        stats := { stats with conflicts := stats.conflicts + 1 } } ∧
    transformAndDedup dp .lastWriterWins mapper li
        { upserts := [rec], deletes := [] } [] stats =
      { upserts := [destRec], deletes := [], linkMap := [(rec.id, d)],
        pushed := [rec.id], stats := stats } :=
  ⟨transform_single_manual dp mapper li rec destRec d stats hmap hecho hlink,
   transform_single_lww dp mapper li rec destRec d stats hmap hecho hlink⟩

/-- Witness for C2 at the concrete conflict scenario. -/
theorem c2_witness :
    transformAndDedup noParse .manual idMapper lwwLinkIndex
        { upserts := [lwwSrcRec], deletes := [] } [] {} =
      { upserts := [], deletes := [], linkMap := [], pushed := [],
        stats := { conflicts := 1 } } ∧
    transformAndDedup noParse .lastWriterWins idMapper lwwLinkIndex
        { upserts := [lwwSrcRec], deletes := [] } [] {} =
      { upserts := [lwwSrcRec], deletes := [],
        linkMap := [(lwwSrcRec.id, "b1")], pushed := [lwwSrcRec.id],
        stats := {} } :=
  c2_conflict_check_ignores_dest_changeset noParse idMapper lwwLinkIndex
    lwwSrcRec lwwSrcRec "b1" {} rfl (by decide) (by decide)

/-- Counterexample for C2 as stated: in a `manual` cycle where only the source
changed — the destination changeset is empty, so it has no upsert at
`existingDest` — the record is nevertheless treated as a conflict: the
conflicts counter becomes 1 and nothing is pushed, instead of the claimed
ordinary update. -/
theorem c2_counterexample :
    manualConflictRun.summary.summaryJson.stats.conflicts = 1 ∧
    manualConflictRun.summary.summaryJson.stats.upsertsAtoB = 0 ∧
    manualConflictRun.li.sourceToDest = [("a1", "b1")] := by
  decide

/-- C3: the claim that `manual` conflicts are persisted via `insertConflict`
fails on the code — the engine only increments the in-run conflicts counter
and skips the record; it never calls `insertConflict` (the source notes the
LinkIndex method was not wired up). Amended behaviour: under `manual` the
resolver always reports "skip" and counts the conflict, and no cycle ever
emits an `insertConflict` call. -/
theorem c3_manual_conflict_counted_not_persisted :
    (∀ (dp : String → Option Int) (rec : Rec) (stats : Stats),
      handleConflict dp .manual rec stats =
        (true, { stats with conflicts := stats.conflicts + 1 })) ∧
    (∀ (α β : Type) (dp : String → Option Int) (cfg : EngineCfg)
      (mapAtoB mapBtoA : Rec → Except String Rec) (adA : AdapterImpl α)
      (adB : AdapterImpl β) (runId : String) (sa : α) (sb : β)
      (li : LinkIndexState),
      Ev.insertConflict ∉
        (runModel dp cfg mapAtoB mapBtoA adA adB runId sa sb li).trace) := by
  refine ⟨handleConflict_manual, ?_⟩
  intro α β dp cfg mapAtoB mapBtoA adA adB runId sa sb li hmem
  have := runModel_trace dp cfg mapAtoB mapBtoA adA adB runId sa sb li
    Ev.insertConflict hmem
  simp [evEngineOp] at this

/-- Counterexample for C3 as stated: a concrete `manual` cycle detects a
conflict (counter 1, record skipped) yet its trace contains no
`insertConflict` call, so no Conflict record is persisted. -/
theorem c3_counterexample :
    manualConflictRun.summary.summaryJson.stats.conflicts = 1 ∧
    manualConflictRun.summary.summaryJson.stats.upsertsAtoB = 0 ∧
    Ev.insertConflict ∉ manualConflictRun.trace := by
  decide

/-! Fail-count accounting and run-summary persistence. -/

/-- Recogniser for the fail-count-related LinkIndex calls. -/
def evIsFailAccounting : Ev → Bool
  | .incrementFailCount _ => true
  | .resetFailCount _ => true
  | .setJobDisabled _ => true
  | _ => false

/-- Recogniser for `insertRun` calls. -/
def evIsInsertRun : Ev → Bool
  | .insertRun _ => true
  | _ => false

theorem countIR_applyWithRetryGo (ad : AdapterImpl σ) (side : Side)
    (changes : ChangeSetM) (mA bS : Nat) :
    ∀ (r att : Nat) (le : Option String) (s : σ) (stats : Stats)
      (tr : List Ev),
      ((applyWithRetryGo ad side changes mA bS r att le s stats
        tr).2.2.2).countP evIsInsertRun = tr.countP evIsInsertRun := by
  intro r
  induction r with
  | zero => intro att le s stats tr; rfl
  | succ r ih =>
      intro att le s stats tr
      simp only [applyWithRetryGo]
      rcases hc : (ad.applyChanges s changes).1 with err | u <;>
        simp only [hc]
      · by_cases hr : r > 0
        · rw [if_pos hr, ih]
          simp [List.countP_append, List.countP_cons, evIsInsertRun]
        · rw [if_neg hr]
          simp [List.countP_append, List.countP_cons, evIsInsertRun]
      · simp [List.countP_append, List.countP_cons, evIsInsertRun]

theorem countIR_pushBatches (ad : AdapterImpl σ) (side : Side) (mA bS : Nat) :
    ∀ (batches : List ChangeSetM) (s : σ) (stats : Stats) (tr : List Ev),
      ((pushBatches ad side mA bS batches s stats tr).2.2.2).countP
        evIsInsertRun = tr.countP evIsInsertRun := by
  intro batches
  induction batches with
  | nil => intro s stats tr; rfl
  | cons b rest ih =>
      intro s stats tr
      simp only [pushBatches]
      rcases hc : applyWithRetry ad side b mA bS s stats tr with
        ⟨res, s', stats', tr'⟩
      have hcount : tr'.countP evIsInsertRun = tr.countP evIsInsertRun := by
        have := countIR_applyWithRetryGo ad side b mA bS mA 1 none s stats tr
        rw [show applyWithRetryGo ad side b mA bS mA 1 none s stats tr =
          (res, s', stats', tr') from hc] at this
        exact this
      rcases res with err | u
      · exact hcount
      · rw [ih s' stats' tr', hcount]

theorem countIR_installLinks :
    ∀ (lm : List (String × String)) (li : LinkIndexState) (tr : List Ev),
      ((installLinks li tr lm).2).countP evIsInsertRun =
        tr.countP evIsInsertRun := by
  intro lm
  induction lm with
  | nil => intro li tr; rfl
  | cons c rest ih =>
      intro li tr
      rcases c with ⟨s0, d0⟩
      simp only [installLinks]
      rw [ih]
      simp [List.countP_append, List.countP_cons, evIsInsertRun]

theorem countIR_runPersist (runId : String) (cfg : EngineCfg)
    (ncA ncB : CursorM) (stats : Stats) (sa : α) (sb : β)
    (li : LinkIndexState) (tr : List Ev) :
    ((runPersist runId cfg ncA ncB stats sa sb li tr).trace).countP
      evIsInsertRun = tr.countP evIsInsertRun + 1 := by
  simp [runPersist, List.countP_append, List.countP_cons, evIsInsertRun]

theorem countIR_runCatch (runId : String) (cfg : EngineCfg) (msg : String)
    (stats : Stats) (sa : α) (sb : β) (li : LinkIndexState) (tr : List Ev) :
    ((runCatch runId cfg msg stats sa sb li tr).trace).countP evIsInsertRun =
      tr.countP evIsInsertRun + 1 := by
  simp [runCatch, List.countP_append, List.countP_cons, evIsInsertRun]

theorem countIR_runDirBtoA (runId : String) (cfg : EngineCfg)
    (adA : AdapterImpl α) (chBtoA : ChangeSetM)
    (lmBtoA : List (String × String)) (ncA ncB : CursorM) (stats : Stats)
    (sa : α) (sb : β) (li : LinkIndexState) (tr : List Ev) :
    ((runDirBtoA runId cfg adA chBtoA lmBtoA ncA ncB stats sa sb li
      tr).trace).countP evIsInsertRun = tr.countP evIsInsertRun + 1 := by
  simp only [runDirBtoA]
  by_cases hne : 0 < chBtoA.upserts.length ∨ 0 < chBtoA.deletes.length
  · rw [if_pos hne]
    rcases hc : pushChanges adA Side.a chBtoA cfg.batchSizeA cfg.maxAttempts
        cfg.backoffSec sa stats tr with ⟨res, sa', stats', tr'⟩
    have hcount : tr'.countP evIsInsertRun = tr.countP evIsInsertRun := by
      have := countIR_pushBatches adA Side.a cfg.maxAttempts cfg.backoffSec
        ((jsChunks cfg.batchSizeA chBtoA.upserts).map
            (fun b => { upserts := b, deletes := [] }) ++
          (jsChunks cfg.batchSizeA chBtoA.deletes).map
            (fun b => { upserts := [], deletes := b })) sa stats tr
      rw [show pushBatches adA Side.a cfg.maxAttempts cfg.backoffSec _ sa
        stats tr = (res, sa', stats', tr') from hc] at this
      exact this
    rcases res with err | u
    · rw [countIR_runCatch, hcount]
    · rw [countIR_runPersist, countIR_installLinks, hcount]
  · rw [if_neg hne, countIR_runPersist]

theorem countIR_runDirAtoB (runId : String) (cfg : EngineCfg)
    (adA : AdapterImpl α) (adB : AdapterImpl β)
    (chAtoB chBtoA : ChangeSetM) (lmAtoB lmBtoA : List (String × String))
    (ncA ncB : CursorM) (stats : Stats) (sa : α) (sb : β)
    (li : LinkIndexState) (tr : List Ev) :
    ((runDirAtoB runId cfg adA adB chAtoB chBtoA lmAtoB lmBtoA ncA ncB stats
      sa sb li tr).trace).countP evIsInsertRun =
      tr.countP evIsInsertRun + 1 := by
  simp only [runDirAtoB]
  by_cases hne : 0 < chAtoB.upserts.length ∨ 0 < chAtoB.deletes.length
  · rw [if_pos hne]
    rcases hc : pushChanges adB Side.b chAtoB cfg.batchSizeB cfg.maxAttempts
        cfg.backoffSec sb stats tr with ⟨res, sb', stats', tr'⟩
    have hcount : tr'.countP evIsInsertRun = tr.countP evIsInsertRun := by
      have := countIR_pushBatches adB Side.b cfg.maxAttempts cfg.backoffSec
        ((jsChunks cfg.batchSizeB chAtoB.upserts).map
            (fun b => { upserts := b, deletes := [] }) ++
          (jsChunks cfg.batchSizeB chAtoB.deletes).map
            (fun b => { upserts := [], deletes := b })) sb stats tr
      rw [show pushBatches adB Side.b cfg.maxAttempts cfg.backoffSec _ sb
        stats tr = (res, sb', stats', tr') from hc] at this
      exact this
    rcases res with err | u
    · rw [countIR_runCatch, hcount]
    · rw [countIR_runDirBtoA, countIR_installLinks, hcount]
  · rw [if_neg hne, countIR_runDirBtoA]

/-- Every non-disabled cycle issues exactly one `insertRun` call. -/
theorem countIR_runModel (dp : String → Option Int) (cfg : EngineCfg)
    (mapAtoB mapBtoA : Rec → Except String Rec) (adA : AdapterImpl α)
    (adB : AdapterImpl β) (runId : String) (sa : α) (sb : β)
    (li : LinkIndexState) (h : isJobDisabledM li cfg.jobId = false) :
    ((runModel dp cfg mapAtoB mapBtoA adA adB runId sa sb
      li).trace).countP evIsInsertRun = 1 := by
  simp only [runModel]
  rw [if_neg (by simp [h])]
  rcases hA : (adA.getUpdates sa
      (loadCursorM li cfg.jobId cfg.sideKeyA)).1 with eA | resA <;>
    simp only [hA]
  · rw [countIR_runCatch]
    rfl
  · rcases hB : (adB.getUpdates sb
        (loadCursorM li cfg.jobId cfg.sideKeyB)).1 with eB | resB <;>
      simp only [hB]
    · rw [countIR_runCatch]
      rfl
    · rw [countIR_runDirAtoB]
      rfl

/-- An adapter whose pull always throws, as the failing spies in the tests. -/
def failingPullAdapter : AdapterImpl Unit where
  getUpdates := fun _ _ => (.error "boom", ())
  applyChanges := fun _ _ => (.ok (), ())

/-- A cycle whose side-A pull fails, with a disable threshold of 1. -/
def failedPullRun : RunResult Unit Unit :=
  runModel noParse { jobId := "job", disableJobAfter := 1 } idMapper idMapper
    failingPullAdapter
    (constAdapter { upserts := [], deletes := [] } { value := some "0" })
    "run" () () emptyLinkIndex

/-- C4: the claim that `run()` increments fail counts on failure, resets them
on success and disables the job at the threshold fails on the code — the
engine performs no fail-count accounting at all (the source comments defer
it). Amended behaviour: no cycle ever emits `incrementFailCount`,
`resetFailCount` or `setJobDisabled`; failures are recorded only in the
persisted run summary. -/
theorem c4_no_fail_count_accounting (α β : Type) (dp : String → Option Int)
    (cfg : EngineCfg) (mapAtoB mapBtoA : Rec → Except String Rec)
    (adA : AdapterImpl α) (adB : AdapterImpl β) (runId : String) (sa : α)
    (sb : β) (li : LinkIndexState) :
    ((runModel dp cfg mapAtoB mapBtoA adA adB runId sa sb li).trace).countP
      evIsFailAccounting = 0 := by
  rw [List.countP_eq_zero]
  intro e he
  have h := runModel_trace dp cfg mapAtoB mapBtoA adA adB runId sa sb li e he
  cases e <;> simp_all [evEngineOp, evIsFailAccounting]

/-- Counterexample for C4 as stated: a failing cycle (side-A pull error, with
`disable_job_after = 1` already reached by any increment) performs no
fail-count increment and no `setJobDisabled`, and a successful cycle performs
no fail-count reset. -/
theorem c4_counterexample :
    failedPullRun.summary.status = RunStatus.failed ∧
    failedPullRun.trace.countP evIsFailAccounting = 0 ∧
    manualConflictRun.summary.status = RunStatus.success ∧
    manualConflictRun.trace.countP evIsFailAccounting = 0 := by
  decide

/-- A link index in which the job "job" is disabled. -/
def disabledLinkIndex : LinkIndexState :=
  { emptyLinkIndex with disabledJobs := [("job", 0)] }

/-- A cycle against the disabled job. -/
def disabledRun : RunResult Unit Unit :=
  runModel noParse { jobId := "job" } idMapper idMapper
    (constAdapter { upserts := [lwwSrcRec], deletes := [] }
      { value := some "1" })
    (constAdapter { upserts := [], deletes := [] } { value := some "0" })
    "run" () () disabledLinkIndex

/-- C5: the claim that every `run()` persists exactly one RunSummary — in
particular that the disabled-path summary is itself persisted — fails on the
code: the disabled preflight returns its summary without calling `insertRun`.
Amended behaviour: when the job is disabled, `run()` returns a `failed`
summary with reason `job_disabled`, invokes nothing (empty trace, link index
untouched); every non-disabled cycle issues exactly one `insertRun`. -/
theorem c5_run_summary_persistence (α β : Type) (dp : String → Option Int)
    (cfg : EngineCfg) (mapAtoB mapBtoA : Rec → Except String Rec)
    (adA : AdapterImpl α) (adB : AdapterImpl β) (runId : String) (sa : α)
    (sb : β) (li : LinkIndexState) :
    (isJobDisabledM li cfg.jobId = true →
      (runModel dp cfg mapAtoB mapBtoA adA adB runId sa sb
          li).summary.status = RunStatus.failed ∧
      (runModel dp cfg mapAtoB mapBtoA adA adB runId sa sb
          li).summary.summaryJson.reason = some "job_disabled" ∧
      (runModel dp cfg mapAtoB mapBtoA adA adB runId sa sb li).trace = [] ∧
      (runModel dp cfg mapAtoB mapBtoA adA adB runId sa sb li).li = li) ∧
    (isJobDisabledM li cfg.jobId = false →
      ((runModel dp cfg mapAtoB mapBtoA adA adB runId sa sb
        li).trace).countP evIsInsertRun = 1) := by
  constructor
  · intro h
    refine ⟨?_, ?_, ?_, ?_⟩ <;>
      · simp only [runModel]
        rw [if_pos h]
  · intro h
    exact countIR_runModel dp cfg mapAtoB mapBtoA adA adB runId sa sb li h

/-- Witness for C5: the two implications discharged at the concrete disabled
and non-disabled cycles. -/
theorem c5_witness :
    (runModel noParse { jobId := "job" } idMapper idMapper
      (constAdapter { upserts := [lwwSrcRec], deletes := [] }
        { value := some "1" })
      (constAdapter { upserts := [], deletes := [] } { value := some "0" })
      "run" () () disabledLinkIndex).trace = [] ∧
    ((runModel noParse { jobId := "job", policy := .manual } idMapper
      idMapper
      (constAdapter { upserts := [lwwSrcRec], deletes := [] }
        { value := some "1" })
      (constAdapter { upserts := [], deletes := [] } { value := some "0" })
      "run" () () lwwLinkIndex).trace).countP evIsInsertRun = 1 :=
  ⟨((c5_run_summary_persistence Unit Unit noParse { jobId := "job" }
      idMapper idMapper
      (constAdapter { upserts := [lwwSrcRec], deletes := [] }
        { value := some "1" })
      (constAdapter { upserts := [], deletes := [] } { value := some "0" })
      "run" () () disabledLinkIndex).1 (by decide)).2.2.1,
   (c5_run_summary_persistence Unit Unit noParse
      { jobId := "job", policy := .manual } idMapper idMapper
      (constAdapter { upserts := [lwwSrcRec], deletes := [] }
        { value := some "1" })
      (constAdapter { upserts := [], deletes := [] } { value := some "0" })
      "run" () () lwwLinkIndex).2 (by decide)⟩

/-- Counterexample for C5 as stated: the disabled-path cycle returns the
`job_disabled` failed summary but its trace is empty — no `insertRun`, no
adapter call — and the link index is exactly as before, so the summary is
not persisted. -/
theorem c5_counterexample :
    disabledRun.summary.status = RunStatus.failed ∧
    disabledRun.summary.summaryJson.reason = some "job_disabled" ∧
    disabledRun.trace = [] ∧
    disabledRun.li = disabledLinkIndex := by
  decide

/-! Retry behaviour. -/

/-- A push target that fails its first `f` `applyChanges` calls and then
succeeds, counting calls in its state — the shape of the retry test's mock. -/
def flakyAdapter (f : Nat) : AdapterImpl Nat where
  getUpdates := fun n _ =>
    (.ok ({ upserts := [], deletes := [] }, { value := none }), n)
  applyChanges := fun n _ =>
    (if n < f then .error "Transient error" else .ok (), n + 1)

/-- A push target whose `applyChanges` always throws. -/
def alwaysFailAdapter : AdapterImpl Unit where
  getUpdates := fun _ _ =>
    (.ok ({ upserts := [], deletes := [] }, { value := none }), ())
  applyChanges := fun _ _ => (.error "E", ())

/-- The events of a retry loop that fails `k` times starting at attempt
`att` and then succeeds: each failed attempt throttles, applies and waits
`backoffSec * 1000 * 2 ^ (attempt - 1)` ms; the final attempt throttles and
applies. -/
def flakyTrace (side : Side) (changes : ChangeSetM) (bS : Nat) :
    Nat → Nat → List Ev
  | 0, _ => [Ev.throttle side, Ev.applyChanges side changes]
  | k + 1, att =>
      [Ev.throttle side, Ev.applyChanges side changes,
        Ev.wait (bS * 1000 * 2 ^ (att - 1))] ++
        flakyTrace side changes bS k (att + 1)

/-- The events of a retry loop of `r` attempts that all fail: every attempt
but the last is followed by a backoff wait. -/
def failTrace (side : Side) (changes : ChangeSetM) (bS : Nat) :
    Nat → Nat → List Ev
  | 0, _ => []
  | 1, _ => [Ev.throttle side, Ev.applyChanges side changes]
  | k + 2, att =>
      [Ev.throttle side, Ev.applyChanges side changes,
        Ev.wait (bS * 1000 * 2 ^ (att - 1))] ++
        failTrace side changes bS (k + 1) (att + 1)

theorem flakyAdapter_applyChanges (f n : Nat) (cs : ChangeSetM) :
    (flakyAdapter f).applyChanges n cs =
      (if n < f then .error "Transient error" else .ok (), n + 1) := rfl

theorem alwaysFailAdapter_applyChanges (cs : ChangeSetM) :
    alwaysFailAdapter.applyChanges () cs = (.error "E", ()) := rfl

theorem flaky_go (side : Side) (changes : ChangeSetM) (mA bS f : Nat) :
    ∀ (k r att n : Nat) (le : Option String) (stats : Stats) (tr : List Ev),
      n + k = f → att = n + 1 → k < r →
      applyWithRetryGo (flakyAdapter f) side changes mA bS r att le n stats
        tr =
        (.ok (), f + 1, { stats with retries := stats.retries + k },
          tr ++ flakyTrace side changes bS k att) := by
  intro k
  induction k with
  | zero =>
      intro r att n le stats tr hn hatt hr
      rcases r with _ | r'
      · omega
      · subst hatt
        have hge : ¬n < f := by omega
        simp only [applyWithRetryGo, flakyAdapter_applyChanges, if_neg hge]
        have hnf : n = f := by omega
        rw [hnf]
        simp [flakyTrace, List.append_assoc]
  | succ k ih =>
      intro r att n le stats tr hn hatt hr
      rcases r with _ | r'
      · omega
      · subst hatt
        have hlt : n < f := by omega
        have hr' : r' > 0 := by omega
        simp only [applyWithRetryGo, flakyAdapter_applyChanges, if_pos hlt,
          if_pos hr']
        rw [ih r' (n + 1 + 1) (n + 1) (some "Transient error")
          { stats with retries := stats.retries + 1 }
          (tr ++ [Ev.throttle side] ++ [Ev.applyChanges side changes] ++
            [Ev.wait (bS * 1000 * 2 ^ (n + 1 - 1))])
          (by omega) rfl (by omega)]
        have harith : stats.retries + 1 + k = stats.retries + (k + 1) := by
          omega
        rw [harith]
        simp [flakyTrace, List.append_assoc]

theorem alwaysFail_go (side : Side) (changes : ChangeSetM) (mA bS : Nat) :
    ∀ (r att : Nat) (le : Option String) (stats : Stats) (tr : List Ev),
      0 < r →
      applyWithRetryGo alwaysFailAdapter side changes mA bS r att le ()
        stats tr =
        (.error ("Failed after " ++ toString mA ++ " attempts: " ++ "E"),
          (),
          { stats with
            errors := stats.errors ++
              ["Failed after " ++ toString mA ++ " attempts: " ++ "E"]
            retries := stats.retries + (r - 1) },
          tr ++ failTrace side changes bS r att) := by
  intro r
  induction r with
  | zero => intro att le stats tr hr; omega
  | succ r' ih =>
      intro att le stats tr hr
      simp only [applyWithRetryGo, alwaysFailAdapter_applyChanges]
      by_cases hr0 : r' > 0
      · rw [if_pos hr0]
        rw [ih (att + 1) (some "E")
          { stats with retries := stats.retries + 1 }
          (tr ++ [Ev.throttle side] ++ [Ev.applyChanges side changes] ++
            [Ev.wait (bS * 1000 * 2 ^ (att - 1))]) hr0]
        have harith : stats.retries + 1 + (r' - 1) =
            stats.retries + (r' + 1 - 1) := by omega
        rw [harith]
        rcases r' with _ | r''
        · omega
        · simp [failTrace, List.append_assoc]
      · have hr0' : r' = 0 := by omega
        subst hr0'
        rw [if_neg hr0]
        simp [failTrace, List.append_assoc]

/-- C9: `applyWithRetry` characterised on the two canonical push targets.
With a target failing `f < max_attempts` times, it returns on the first
success after `f + 1` throttle-then-apply attempts, adds exactly `f` to the
retries counter, and between consecutive attempts waits
`backoff_sec * 1000 * 2 ^ (k - 1)` ms after failed attempt `k` (the wait
events of `flakyTrace`). With a target that always fails and
`0 < max_attempts`, all `max_attempts` attempts are made, exactly
`max_attempts - 1` retries are counted, and the error
`Failed after N attempts` is recorded in the errors and raised. -/
theorem c9_retry_attempts_backoff_exhaustion :
    (∀ (side : Side) (changes : ChangeSetM) (mA bS f : Nat) (stats : Stats)
      (tr : List Ev), f < mA →
      applyWithRetry (flakyAdapter f) side changes mA bS 0 stats tr =
        (.ok (), f + 1, { stats with retries := stats.retries + f },
          tr ++ flakyTrace side changes bS f 1)) ∧
    (∀ (side : Side) (changes : ChangeSetM) (mA bS : Nat) (stats : Stats)
      (tr : List Ev), 0 < mA →
      applyWithRetry alwaysFailAdapter side changes mA bS () stats tr =
        (.error ("Failed after " ++ toString mA ++ " attempts: " ++ "E"),
          (),
          { stats with
            errors := stats.errors ++
              ["Failed after " ++ toString mA ++ " attempts: " ++ "E"]
            retries := stats.retries + (mA - 1) },
          tr ++ failTrace side changes bS mA 1)) := by
  constructor
  · intro side changes mA bS f stats tr hf
    exact flaky_go side changes mA bS f f mA 1 0 none stats tr (by omega)
      rfl hf
  · intro side changes mA bS stats tr hmA
    exact alwaysFail_go side changes mA bS mA 1 none stats tr hmA

/-- Witness for C9 at the retry test's numbers: two failures then success
with three attempts allowed gives 2 retries; three guaranteed failures give
the exhaustion error with 2 retries. -/
theorem c9_witness :
    applyWithRetry (flakyAdapter 2) Side.b
        { upserts := [], deletes := [] } 3 1 0 {} [] =
      (.ok (), 3, { retries := 2 },
        flakyTrace Side.b { upserts := [], deletes := [] } 1 2 1) ∧
    applyWithRetry alwaysFailAdapter Side.b
        { upserts := [], deletes := [] } 3 1 () {} [] =
      (.error "Failed after 3 attempts: E", (),
        { errors := ["Failed after 3 attempts: E"], retries := 2 },
        failTrace Side.b { upserts := [], deletes := [] } 1 3 1) :=
  ⟨c9_retry_attempts_backoff_exhaustion.1 Side.b
      { upserts := [], deletes := [] } 3 1 2 {} [] (by decide),
   c9_retry_attempts_backoff_exhaustion.2 Side.b
      { upserts := [], deletes := [] } 3 1 {} [] (by decide)⟩

/-! Frame effects of a failed cycle. -/

/-- Recogniser for `saveCursor` calls. -/
def evIsSaveCursor : Ev → Bool
  | .saveCursor _ _ => true
  | _ => false

/-- An adapter whose pull succeeds with the given changeset but whose pushes
always fail. -/
def pullOkPushFailAdapter (changes : ChangeSetM) (next : CursorM) :
    AdapterImpl Unit where
  getUpdates := fun _ _ => (.ok (changes, next), ())
  applyChanges := fun _ _ => (.error "A down", ())

/-- A cycle in which the A→B push succeeds (B accepts a1) and the subsequent
B→A push exhausts its two attempts (A rejects b1). -/
def partialFailRun : RunResult Unit Unit :=
  runModel noParse { jobId := "job", maxAttempts := 2, backoffSec := 1 }
    idMapper idMapper
    (pullOkPushFailAdapter
      { upserts := [{ id := "a1", fields := [] }], deletes := [] }
      { value := some "1" })
    (constAdapter { upserts := [{ id := "b1", fields := [] }], deletes := [] }
      { value := some "1" })
    "run" () () emptyLinkIndex

/-- C10: when the A→B push succeeds and the B→A push then fails with retries
exhausted, the cycle's summary is `failed`, yet the A→B link (a1 ↔ a1 under
the identity mapper) has been installed in the link index and remains there,
while `saveCursor` was never called and the cursor store is untouched — the
link index can change in a cycle whose run status is `failed`. -/
theorem c10_failed_cycle_keeps_installed_links :
    partialFailRun.summary.status = RunStatus.failed ∧
    partialFailRun.summary.summaryJson.stats.upsertsAtoB = 1 ∧
    findDestM partialFailRun.li "a1" = some "a1" ∧
    findSourceM partialFailRun.li "a1" = some "a1" ∧
    partialFailRun.trace.countP evIsSaveCursor = 0 ∧
    partialFailRun.li.cursors = [] := by
  decide

/-! Cursor persistence. -/

theorem cursorKey_inj (j a b : String) (h : a ≠ b) :
    j ++ ":" ++ a ≠ j ++ ":" ++ b := by
  intro hc
  apply h
  have hd : (j ++ ":" ++ a).data = (j ++ ":" ++ b).data := by rw [hc]
  simp only [String.data_append] at hd
  exact String.ext (List.append_cancel_left hd)

theorem loadCursor_saveCursor_self (st : LinkIndexState) (j k : String)
    (c : CursorM) : loadCursorM (saveCursorM st j k c) j k = c := by
  simp [loadCursorM, saveCursorM, jsGet_jsSet]

theorem loadCursor_saveCursor_ne (st : LinkIndexState) (j k j2 k2 : String)
    (c : CursorM) (h : j ++ ":" ++ k ≠ j2 ++ ":" ++ k2) :
    loadCursorM (saveCursorM st j2 k2 c) j k = loadCursorM st j k := by
  simp only [loadCursorM, saveCursorM, jsGet_jsSet, if_neg h]

theorem insertRunM_cursors (st : LinkIndexState) (r : RunSummaryM) :
    (insertRunM st r).cursors = st.cursors := rfl

theorem upsertLinkM_cursors (st : LinkIndexState) (s d : String) :
    (upsertLinkM st s d).cursors = st.cursors := rfl

theorem installLinks_cursors :
    ∀ (lm : List (String × String)) (li : LinkIndexState) (tr : List Ev),
      (installLinks li tr lm).1.cursors = li.cursors := by
  intro lm
  induction lm with
  | nil => intro li tr; rfl
  | cons c rest ih =>
      intro li tr
      rcases c with ⟨s0, d0⟩
      simp only [installLinks]
      rw [ih]
      rfl

theorem countSC_applyWithRetryGo (ad : AdapterImpl σ) (side : Side)
    (changes : ChangeSetM) (mA bS : Nat) :
    ∀ (r att : Nat) (le : Option String) (s : σ) (stats : Stats)
      (tr : List Ev),
      ((applyWithRetryGo ad side changes mA bS r att le s stats
        tr).2.2.2).countP evIsSaveCursor = tr.countP evIsSaveCursor := by
  intro r
  induction r with
  | zero => intro att le s stats tr; rfl
  | succ r ih =>
      intro att le s stats tr
      simp only [applyWithRetryGo]
      rcases hc : (ad.applyChanges s changes).1 with err | u <;>
        simp only [hc]
      · by_cases hr : r > 0
        · rw [if_pos hr, ih]
          simp [List.countP_append, List.countP_cons, evIsSaveCursor]
        · rw [if_neg hr]
          simp [List.countP_append, List.countP_cons, evIsSaveCursor]
      · simp [List.countP_append, List.countP_cons, evIsSaveCursor]

theorem countSC_pushBatches (ad : AdapterImpl σ) (side : Side) (mA bS : Nat) :
    ∀ (batches : List ChangeSetM) (s : σ) (stats : Stats) (tr : List Ev),
      ((pushBatches ad side mA bS batches s stats tr).2.2.2).countP
        evIsSaveCursor = tr.countP evIsSaveCursor := by
  intro batches
  induction batches with
  | nil => intro s stats tr; rfl
  | cons b rest ih =>
      intro s stats tr
      simp only [pushBatches]
      rcases hc : applyWithRetry ad side b mA bS s stats tr with
        ⟨res, s', stats', tr'⟩
      have hcount : tr'.countP evIsSaveCursor = tr.countP evIsSaveCursor := by
        have := countSC_applyWithRetryGo ad side b mA bS mA 1 none s stats tr
        rw [show applyWithRetryGo ad side b mA bS mA 1 none s stats tr =
          (res, s', stats', tr') from hc] at this
        exact this
      rcases res with err | u
      · exact hcount
      · rw [ih s' stats' tr', hcount]

theorem countSC_installLinks :
    ∀ (lm : List (String × String)) (li : LinkIndexState) (tr : List Ev),
      ((installLinks li tr lm).2).countP evIsSaveCursor =
        tr.countP evIsSaveCursor := by
  intro lm
  induction lm with
  | nil => intro li tr; rfl
  | cons c rest ih =>
      intro li tr
      rcases c with ⟨s0, d0⟩
      simp only [installLinks]
      rw [ih]
      simp [List.countP_append, List.countP_cons, evIsSaveCursor]

theorem runCatch_cursors (runId : String) (cfg : EngineCfg) (msg : String)
    (stats : Stats) (sa : α) (sb : β) (li : LinkIndexState) (tr : List Ev) :
    (runCatch runId cfg msg stats sa sb li tr).li.cursors = li.cursors ∧
    ((runCatch runId cfg msg stats sa sb li tr).trace).countP
      evIsSaveCursor = tr.countP evIsSaveCursor := by
  constructor
  · rfl
  · simp [runCatch, List.countP_append, List.countP_cons, evIsSaveCursor]

theorem runPersist_cursors (runId : String) (cfg : EngineCfg)
    (ncA ncB : CursorM) (stats : Stats) (sa : α) (sb : β)
    (li : LinkIndexState) (tr : List Ev)
    (hk : cfg.sideKeyA ≠ cfg.sideKeyB) :
    loadCursorM (runPersist runId cfg ncA ncB stats sa sb li tr).li
        cfg.jobId cfg.sideKeyA = ncA ∧
    loadCursorM (runPersist runId cfg ncA ncB stats sa sb li tr).li
        cfg.jobId cfg.sideKeyB = ncB := by
  constructor
  · show loadCursorM (insertRunM (saveCursorM (saveCursorM li cfg.jobId
      cfg.sideKeyA ncA) cfg.jobId cfg.sideKeyB ncB) _) cfg.jobId
      cfg.sideKeyA = ncA
    rw [show ∀ (st : LinkIndexState) (r : RunSummaryM) (j k : String),
        loadCursorM (insertRunM st r) j k = loadCursorM st j k from
      fun st r j k => rfl]
    rw [loadCursor_saveCursor_ne _ _ _ _ _ _ (cursorKey_inj _ _ _ hk),
      loadCursor_saveCursor_self]
  · show loadCursorM (insertRunM (saveCursorM (saveCursorM li cfg.jobId
      cfg.sideKeyA ncA) cfg.jobId cfg.sideKeyB ncB) _) cfg.jobId
      cfg.sideKeyB = ncB
    rw [show ∀ (st : LinkIndexState) (r : RunSummaryM) (j k : String),
        loadCursorM (insertRunM st r) j k = loadCursorM st j k from
      fun st r j k => rfl]
    rw [loadCursor_saveCursor_self]

theorem countSC_runPersist (runId : String) (cfg : EngineCfg)
    (ncA ncB : CursorM) (stats : Stats) (sa : α) (sb : β)
    (li : LinkIndexState) (tr : List Ev) :
    ((runPersist runId cfg ncA ncB stats sa sb li tr).trace).countP
      evIsSaveCursor = tr.countP evIsSaveCursor + 2 := by
  simp [runPersist, List.countP_append, List.countP_cons, evIsSaveCursor]

/-- Propositional bridge: a fatal-error-discriminated disjunction yields the
two directions of the cursor-persistence statement. -/
theorem cursorDiscElim {f : Option String} {c a b : Prop} {n base : Nat}
    (hD : (¬ f = none ∧ c ∧ n = base) ∨ (f = none ∧ a ∧ b ∧ n = base + 2))
    (hbase : base = 0) :
    (¬ f = none → c ∧ n = 0) ∧ (f = none → a ∧ b ∧ n = 2) := by
  subst hbase
  rcases hD with ⟨hf, hc, hn⟩ | ⟨hf, ha, hb, hn⟩
  · exact ⟨fun _ => ⟨hc, hn⟩, fun he => absurd he hf⟩
  · exact ⟨fun hfe => absurd hf hfe, fun _ => ⟨ha, hb, hn⟩⟩

theorem runDirBtoA_cursors (runId : String) (cfg : EngineCfg)
    (adA : AdapterImpl α) (chBtoA : ChangeSetM)
    (lmBtoA : List (String × String)) (ncA ncB : CursorM) (stats : Stats)
    (sa : α) (sb : β) (li : LinkIndexState) (tr : List Ev)
    (hk : cfg.sideKeyA ≠ cfg.sideKeyB) :
    ((runDirBtoA runId cfg adA chBtoA lmBtoA ncA ncB stats sa sb li
        tr).summary.summaryJson.fatalError ≠ none ∧
      (runDirBtoA runId cfg adA chBtoA lmBtoA ncA ncB stats sa sb li
        tr).li.cursors = li.cursors ∧
      ((runDirBtoA runId cfg adA chBtoA lmBtoA ncA ncB stats sa sb li
        tr).trace).countP evIsSaveCursor = tr.countP evIsSaveCursor) ∨
    ((runDirBtoA runId cfg adA chBtoA lmBtoA ncA ncB stats sa sb li
        tr).summary.summaryJson.fatalError = none ∧
      loadCursorM (runDirBtoA runId cfg adA chBtoA lmBtoA ncA ncB stats sa sb
        li tr).li cfg.jobId cfg.sideKeyA = ncA ∧
      loadCursorM (runDirBtoA runId cfg adA chBtoA lmBtoA ncA ncB stats sa
        sb li tr).li cfg.jobId cfg.sideKeyB = ncB ∧
      ((runDirBtoA runId cfg adA chBtoA lmBtoA ncA ncB stats sa sb li
        tr).trace).countP evIsSaveCursor =
        tr.countP evIsSaveCursor + 2) := by
  simp only [runDirBtoA]
  by_cases hne : 0 < chBtoA.upserts.length ∨ 0 < chBtoA.deletes.length
  · rw [if_pos hne]
    rcases hc : pushChanges adA Side.a chBtoA cfg.batchSizeA cfg.maxAttempts
        cfg.backoffSec sa stats tr with ⟨res, sa', stats', tr'⟩
    have hcount : tr'.countP evIsSaveCursor = tr.countP evIsSaveCursor := by
      have := countSC_pushBatches adA Side.a cfg.maxAttempts cfg.backoffSec
        ((jsChunks cfg.batchSizeA chBtoA.upserts).map
            (fun b => { upserts := b, deletes := [] }) ++
          (jsChunks cfg.batchSizeA chBtoA.deletes).map
            (fun b => { upserts := [], deletes := b })) sa stats tr
      rw [show pushBatches adA Side.a cfg.maxAttempts cfg.backoffSec _ sa
        stats tr = (res, sa', stats', tr') from hc] at this
      exact this
    rcases res with err | u
    · left
      have h := runCatch_cursors runId cfg err stats' sa' sb li tr'
      exact ⟨by simp [runCatch], h.1, h.2.trans hcount⟩
    · right
      refine ⟨rfl, ?_, ?_, ?_⟩
      · exact (runPersist_cursors runId cfg ncA ncB _ sa' sb
          (installLinks li tr' lmBtoA).1 (installLinks li tr' lmBtoA).2 hk).1
      · exact (runPersist_cursors runId cfg ncA ncB _ sa' sb
          (installLinks li tr' lmBtoA).1 (installLinks li tr' lmBtoA).2 hk).2
      · rw [countSC_runPersist, countSC_installLinks, hcount]
  · rw [if_neg hne]
    right
    have hp := runPersist_cursors runId cfg ncA ncB stats sa sb li tr hk
    exact ⟨rfl, hp.1, hp.2,
      countSC_runPersist runId cfg ncA ncB stats sa sb li tr⟩

theorem runDirAtoB_cursors (runId : String) (cfg : EngineCfg)
    (adA : AdapterImpl α) (adB : AdapterImpl β)
    (chAtoB chBtoA : ChangeSetM) (lmAtoB lmBtoA : List (String × String))
    (ncA ncB : CursorM) (stats : Stats) (sa : α) (sb : β)
    (li : LinkIndexState) (tr : List Ev)
    (hk : cfg.sideKeyA ≠ cfg.sideKeyB) :
    ((runDirAtoB runId cfg adA adB chAtoB chBtoA lmAtoB lmBtoA ncA ncB stats
        sa sb li tr).summary.summaryJson.fatalError ≠ none ∧
      (runDirAtoB runId cfg adA adB chAtoB chBtoA lmAtoB lmBtoA ncA ncB stats
        sa sb li tr).li.cursors = li.cursors ∧
      ((runDirAtoB runId cfg adA adB chAtoB chBtoA lmAtoB lmBtoA ncA ncB
        stats sa sb li tr).trace).countP evIsSaveCursor =
        tr.countP evIsSaveCursor) ∨
    ((runDirAtoB runId cfg adA adB chAtoB chBtoA lmAtoB lmBtoA ncA ncB stats
        sa sb li tr).summary.summaryJson.fatalError = none ∧
      loadCursorM (runDirAtoB runId cfg adA adB chAtoB chBtoA lmAtoB lmBtoA
        ncA ncB stats sa sb li tr).li cfg.jobId cfg.sideKeyA = ncA ∧
      loadCursorM (runDirAtoB runId cfg adA adB chAtoB chBtoA lmAtoB lmBtoA
        ncA ncB stats sa sb li tr).li cfg.jobId cfg.sideKeyB = ncB ∧
      ((runDirAtoB runId cfg adA adB chAtoB chBtoA lmAtoB lmBtoA ncA ncB
        stats sa sb li tr).trace).countP evIsSaveCursor =
        tr.countP evIsSaveCursor + 2) := by
  simp only [runDirAtoB]
  by_cases hne : 0 < chAtoB.upserts.length ∨ 0 < chAtoB.deletes.length
  · rw [if_pos hne]
    rcases hc : pushChanges adB Side.b chAtoB cfg.batchSizeB cfg.maxAttempts
        cfg.backoffSec sb stats tr with ⟨res, sb', stats', tr'⟩
    have hcount : tr'.countP evIsSaveCursor = tr.countP evIsSaveCursor := by
      have := countSC_pushBatches adB Side.b cfg.maxAttempts cfg.backoffSec
        ((jsChunks cfg.batchSizeB chAtoB.upserts).map
            (fun b => { upserts := b, deletes := [] }) ++
          (jsChunks cfg.batchSizeB chAtoB.deletes).map
            (fun b => { upserts := [], deletes := b })) sb stats tr
      rw [show pushBatches adB Side.b cfg.maxAttempts cfg.backoffSec _ sb
        stats tr = (res, sb', stats', tr') from hc] at this
      exact this
    rcases res with err | u
    · left
      have h := runCatch_cursors runId cfg err stats' sa sb' li tr'
      exact ⟨by simp [runCatch], h.1, h.2.trans hcount⟩
    · rcases runDirBtoA_cursors runId cfg adA chBtoA lmBtoA ncA ncB
          { stats' with
            upsertsAtoB := chAtoB.upserts.length
            deletesAtoB := chAtoB.deletes.length } sa sb'
          (installLinks li tr' lmAtoB).1 (installLinks li tr' lmAtoB).2 hk
        with h | h
      · left
        refine ⟨h.1, ?_, ?_⟩
        · rw [h.2.1, installLinks_cursors]
        · rw [h.2.2, countSC_installLinks, hcount]
      · right
        refine ⟨h.1, h.2.1, h.2.2.1, ?_⟩
        rw [h.2.2.2, countSC_installLinks, hcount]
  · rw [if_neg hne]
    exact runDirBtoA_cursors runId cfg adA chBtoA lmBtoA ncA ncB stats sa sb
      li tr hk

/-- C8: cursors are written only by cycles that complete their pushes. If a
pull fails, no `saveCursor` is issued and the cursor store is untouched. If
both pulls succeed on a non-disabled job, the outcome is discriminated by the
summary's `fatalError` field (set exactly when a push aborted the cycle): an
aborted push issues no `saveCursor` and leaves the cursor store untouched,
while a completed cycle calls `saveCursor` exactly twice and each side's
stored cursor is exactly the `nextCursor` that side's `getUpdates` returned
in this cycle. -/
theorem c8_cursor_persistence (α β : Type) (dp : String → Option Int)
    (cfg : EngineCfg) (mapAtoB mapBtoA : Rec → Except String Rec)
    (adA : AdapterImpl α) (adB : AdapterImpl β) (runId : String) (sa : α)
    (sb : β) (li : LinkIndexState) (hk : cfg.sideKeyA ≠ cfg.sideKeyB) :
    (∀ e, (adA.getUpdates sa (loadCursorM li cfg.jobId cfg.sideKeyA)).1 =
        .error e →
      (runModel dp cfg mapAtoB mapBtoA adA adB runId sa sb li).li.cursors =
          li.cursors ∧
      ((runModel dp cfg mapAtoB mapBtoA adA adB runId sa sb
        li).trace).countP evIsSaveCursor = 0) ∧
    (∀ resA e,
      (adA.getUpdates sa (loadCursorM li cfg.jobId cfg.sideKeyA)).1 =
        .ok resA →
      (adB.getUpdates sb (loadCursorM li cfg.jobId cfg.sideKeyB)).1 =
        .error e →
      (runModel dp cfg mapAtoB mapBtoA adA adB runId sa sb li).li.cursors =
          li.cursors ∧
      ((runModel dp cfg mapAtoB mapBtoA adA adB runId sa sb
        li).trace).countP evIsSaveCursor = 0) ∧
    (∀ resA resB,
      isJobDisabledM li cfg.jobId = false →
      (adA.getUpdates sa (loadCursorM li cfg.jobId cfg.sideKeyA)).1 =
        .ok resA →
      (adB.getUpdates sb (loadCursorM li cfg.jobId cfg.sideKeyB)).1 =
        .ok resB →
      (((runModel dp cfg mapAtoB mapBtoA adA adB runId sa sb
          li).summary.summaryJson.fatalError ≠ none →
        (runModel dp cfg mapAtoB mapBtoA adA adB runId sa sb li).li.cursors =
            li.cursors ∧
        ((runModel dp cfg mapAtoB mapBtoA adA adB runId sa sb
          li).trace).countP evIsSaveCursor = 0) ∧
       ((runModel dp cfg mapAtoB mapBtoA adA adB runId sa sb
          li).summary.summaryJson.fatalError = none →
        loadCursorM (runModel dp cfg mapAtoB mapBtoA adA adB runId sa sb
          li).li cfg.jobId cfg.sideKeyA = resA.2 ∧
        loadCursorM (runModel dp cfg mapAtoB mapBtoA adA adB runId sa sb
          li).li cfg.jobId cfg.sideKeyB = resB.2 ∧
        ((runModel dp cfg mapAtoB mapBtoA adA adB runId sa sb
          li).trace).countP evIsSaveCursor = 2))) := by
  by_cases hd : isJobDisabledM li cfg.jobId
  · refine ⟨?_, ?_, ?_⟩
    · intro e hA
      simp only [runModel, if_pos hd]
      exact ⟨by simp, by simp⟩
    · intro resA e hA hB
      simp only [runModel, if_pos hd]
      exact ⟨by simp, by simp⟩
    · intro resA resB hd0 hA hB
      rw [hd] at hd0
      exact Bool.noConfusion hd0
  · refine ⟨?_, ?_, ?_⟩
    · intro e hA
      simp only [runModel, if_neg hd, hA]
      have h := runCatch_cursors runId cfg
        ("Failed to get updates from side A: " ++ e)
        { errors := ["Failed to get updates from side A: " ++ e] }
        (adA.getUpdates sa (loadCursorM li cfg.jobId cfg.sideKeyA)).2 sb li
        [Ev.getUpdates Side.a]
      exact ⟨h.1, h.2⟩
    · intro resA e hA hB
      simp only [runModel, if_neg hd, hA, hB]
      have h := runCatch_cursors runId cfg
        ("Failed to get updates from side B: " ++ e)
        { errors := ["Failed to get updates from side B: " ++ e] }
        (adA.getUpdates sa (loadCursorM li cfg.jobId cfg.sideKeyA)).2
        (adB.getUpdates sb (loadCursorM li cfg.jobId cfg.sideKeyB)).2 li
        ([Ev.getUpdates Side.a] ++ [Ev.getUpdates Side.b])
      exact ⟨h.1, h.2⟩
    · intro resA resB hd0 hA hB
      simp only [runModel, if_neg hd, hA, hB]
      exact cursorDiscElim (runDirAtoB_cursors runId cfg adA adB _ _ _ _
        resA.2 resB.2 _
        (adA.getUpdates sa (loadCursorM li cfg.jobId cfg.sideKeyA)).2
        (adB.getUpdates sb (loadCursorM li cfg.jobId cfg.sideKeyB)).2 li
        ([Ev.getUpdates Side.a] ++ [Ev.getUpdates Side.b]) hk) rfl

/-- Witness for C8 at two concrete cycles, discharging the discriminator each
time: a completed cycle (the push to B succeeds) stores exactly the next
cursors returned by the pulls with two `saveCursor` calls, and an aborted
cycle (B's `applyChanges` always fails) leaves the cursor store untouched
with zero `saveCursor` calls. -/
theorem c8_witness :
    (loadCursorM (runModel noParse { jobId := "job" } idMapper idMapper
        (constAdapter { upserts := [lwwSrcRec], deletes := [] }
          { value := some "1" })
        (constAdapter { upserts := [], deletes := [] } { value := some "0" })
        "run" () () emptyLinkIndex).li "job" "sideA" =
          { value := some "1" } ∧
      loadCursorM (runModel noParse { jobId := "job" } idMapper idMapper
        (constAdapter { upserts := [lwwSrcRec], deletes := [] }
          { value := some "1" })
        (constAdapter { upserts := [], deletes := [] } { value := some "0" })
        "run" () () emptyLinkIndex).li "job" "sideB" =
          { value := some "0" } ∧
      ((runModel noParse { jobId := "job" } idMapper idMapper
        (constAdapter { upserts := [lwwSrcRec], deletes := [] }
          { value := some "1" })
        (constAdapter { upserts := [], deletes := [] } { value := some "0" })
        "run" () () emptyLinkIndex).trace).countP evIsSaveCursor = 2) ∧
    ((runModel noParse { jobId := "job" } idMapper idMapper
        (constAdapter { upserts := [lwwSrcRec], deletes := [] }
          { value := some "1" })
        (pullOkPushFailAdapter { upserts := [], deletes := [] }
          { value := some "0" })
        "run" () () emptyLinkIndex).li.cursors = emptyLinkIndex.cursors ∧
      ((runModel noParse { jobId := "job" } idMapper idMapper
        (constAdapter { upserts := [lwwSrcRec], deletes := [] }
          { value := some "1" })
        (pullOkPushFailAdapter { upserts := [], deletes := [] }
          { value := some "0" })
        "run" () () emptyLinkIndex).trace).countP evIsSaveCursor = 0) :=
  ⟨((c8_cursor_persistence Unit Unit noParse { jobId := "job" } idMapper
      idMapper
      (constAdapter { upserts := [lwwSrcRec], deletes := [] }
        { value := some "1" })
      (constAdapter { upserts := [], deletes := [] } { value := some "0" })
      "run" () () emptyLinkIndex (by decide)).2.2
      ({ upserts := [lwwSrcRec], deletes := [] }, { value := some "1" })
      ({ upserts := [], deletes := [] }, { value := some "0" })
      rfl rfl rfl).2 (by decide),
   ((c8_cursor_persistence Unit Unit noParse { jobId := "job" } idMapper
      idMapper
      (constAdapter { upserts := [lwwSrcRec], deletes := [] }
        { value := some "1" })
      (pullOkPushFailAdapter { upserts := [], deletes := [] }
        { value := some "0" })
      "run" () () emptyLinkIndex (by decide)).2.2
      ({ upserts := [lwwSrcRec], deletes := [] }, { value := some "1" })
      ({ upserts := [], deletes := [] }, { value := some "0" })
      rfl rfl rfl).1 (by decide)⟩

/-! ### C6: echo idempotence of `run()`

The second of two back-to-back cycles re-pulls only records the first cycle
itself wrote (side B's copies) or already linked (side A's originals); the
`findSource(destRec.id) === sourceRec.id` guard of `transformAndDedup`
suppresses every one of them, so the second cycle pushes nothing and installs
no links. -/

/-- `Map.prototype.set` with a fresh key appends the binding. -/
theorem jsSet_append_of_not_mem (m : List (String × α)) (k : String) (v : α)
    (h : k ∉ m.map Prod.fst) : jsSet m k v = m ++ [(k, v)] := by
  induction m with
  | nil => rfl
  | cons p rest ih =>
      obtain ⟨k', v'⟩ := p
      simp only [List.map_cons, List.mem_cons] at h
      push_neg at h
      simp only [jsSet]
      rw [if_neg (by simp only [beq_iff_eq]; exact fun e => h.1 e.symm)]
      rw [ih h.2]
      rfl

/-- In a map whose bindings are all identity pairs, every member key maps to
itself. -/
theorem jsGet_idPairs (l : List Rec) (x : String)
    (hx : x ∈ l.map Rec.id) :
    jsGet (l.map (fun r => (r.id, r.id))) x = some x := by
  induction l with
  | nil => cases hx
  | cons r rest ih =>
      simp only [List.map_cons] at hx ⊢
      rw [jsGet_cons]
      by_cases hr : r.id = x
      · rw [if_pos hr, hr]
      · rw [if_neg hr]
        rcases List.mem_cons.mp hx with h | h
        · exact absurd h.symm hr
        · exact ih h

/-- `records.set` with a fresh id appends the record. -/
theorem jsRecSet_append_of_not_mem (m : List Rec) (r : Rec)
    (h : r.id ∉ m.map Rec.id) : jsRecSet m r = m ++ [r] := by
  induction m with
  | nil => rfl
  | cons x rest ih =>
      simp only [List.map_cons, List.mem_cons] at h
      push_neg at h
      simp only [jsRecSet]
      rw [if_neg (by simp only [beq_iff_eq]; exact fun e => h.1 e.symm)]
      rw [ih h.2]
      rfl

/-- Replaying a duplicate-free record list whose ids are fresh for the map
appends them all in order. -/
theorem foldl_jsRecSet_fresh (l : List Rec) : ∀ (m : List Rec),
    (l.map Rec.id).Nodup → (∀ i ∈ l.map Rec.id, i ∉ m.map Rec.id) →
    l.foldl jsRecSet m = m ++ l := by
  induction l with
  | nil =>
      intro m _ _
      simp
  | cons r rest ih =>
      intro m hnd hdisj
      simp only [List.map_cons, List.nodup_cons] at hnd
      simp only [List.foldl_cons]
      rw [jsRecSet_append_of_not_mem m r (hdisj r.id (by simp))]
      have hstep : rest.foldl jsRecSet (m ++ [r]) = (m ++ [r]) ++ rest := by
        refine ih (m ++ [r]) hnd.2 ?_
        intro i hi
        rw [List.map_append, List.mem_append]
        rintro (h1 | h2)
        · exact hdisj i (by simp [hi]) h1
        · simp only [List.map_cons, List.map_nil, List.mem_singleton] at h2
          exact hnd.1 (h2 ▸ hi)
      rw [hstep]
      simp

/-- A single in-memory `applyWithRetry` call succeeds on the first attempt and
applies the changeset. -/
theorem applyWithRetry_inMem (dp : String → Option Int) (side : Side)
    (cs : ChangeSetM) (mA bS : Nat) (hmA : 0 < mA) (s : AdapterState)
    (stats : Stats) (tr : List Ev) :
    applyWithRetry (inMemAdapter dp) side cs mA bS s stats tr =
      (.ok (), inMemApplyChanges s cs, stats,
        tr ++ [Ev.throttle side, Ev.applyChanges side cs]) := by
  unfold applyWithRetry
  rcases mA with _ | m
  · exact absurd hmA (lt_irrefl 0)
  · simp [applyWithRetryGo, inMemAdapter]

/-- Pushing any batch list at the in-memory adapter succeeds and folds the
batches into the state, emitting one throttle/apply pair per batch. -/
theorem pushBatches_inMem (dp : String → Option Int) (side : Side)
    (mA bS : Nat) (hmA : 0 < mA) :
    ∀ (batches : List ChangeSetM) (s : AdapterState) (stats : Stats)
      (tr : List Ev),
      pushBatches (inMemAdapter dp) side mA bS batches s stats tr =
        (.ok (), batches.foldl inMemApplyChanges s, stats,
          tr ++ batches.foldr (fun b acc =>
            Ev.throttle side :: Ev.applyChanges side b :: acc) []) := by
  intro batches
  induction batches with
  | nil =>
      intro s stats tr
      simp [pushBatches]
  | cons b rest ih =>
      intro s stats tr
      simp only [pushBatches]
      rw [applyWithRetry_inMem dp side b mA bS hmA]
      simp only []
      rw [ih]
      simp

/-- Folding the `batchSize` chunks of a record list into the in-memory state
is the same as replaying the records one by one. -/
theorem foldl_inMemApply_chunks (n : Nat) (hn : 0 < n) :
    ∀ (fuel : Nat) (l : List Rec) (s : AdapterState), l.length ≤ fuel →
      ((jsChunksFuel n fuel l).map
          (fun b => ChangeSetM.mk b [])).foldl inMemApplyChanges s =
        { records := l.foldl jsRecSet s.records,
          deletedIds := s.deletedIds } := by
  intro fuel
  induction fuel with
  | zero =>
      intro l s hl
      cases l with
      | nil => simp [jsChunksFuel]
      | cons x xs => simp at hl
  | succ f ih =>
      intro l s hl
      cases l with
      | nil => simp [jsChunksFuel]
      | cons x xs =>
          simp only [jsChunksFuel]
          rw [if_neg (Nat.pos_iff_ne_zero.mp hn)]
          simp only [List.map_cons, List.foldl_cons]
          rw [ih ((x :: xs).drop n) _ (by
            rw [List.length_drop]
            simp only [List.length_cons] at hl ⊢
            omega)]
          simp only [inMemApplyChanges, List.foldl_nil]
          rw [← List.foldl_append, List.take_append_drop, List.foldl_cons]

/-- `Array.includes` / `Set.has` in `Prop` form. -/
theorem contains_eq_false_of_not_mem (l : List String) (x : String)
    (h : x ∉ l) : l.contains x = false := by
  simpa using h

theorem findDestM_empty (x : String) : findDestM emptyLinkIndex x = none := rfl

theorem findSourceM_empty (x : String) :
    findSourceM emptyLinkIndex x = none := rfl

/-- Fresh-record pass of the upsert loop of `transformAndDedup`: with no links
installed and duplicate-free fresh ids, every record is emitted as a new
record together with an identity link-map entry. -/
theorem transformUpserts_fresh (dp : String → Option Int)
    (policy : ConflictPolicyM) :
    ∀ (l : List Rec) (acc : TransformAcc),
      (l.map Rec.id).Nodup →
      (∀ r ∈ l, r.id ∉ acc.pushed) →
      (∀ r ∈ l, r.id ∉ acc.linkMap.map Prod.fst) →
      transformUpserts dp policy idMapper emptyLinkIndex l acc =
        { upserts := acc.upserts ++ l
          deletes := acc.deletes
          linkMap := acc.linkMap ++ l.map (fun r => (r.id, r.id))
          pushed := acc.pushed ++ l.map Rec.id
          stats := acc.stats } := by
  intro l
  induction l with
  | nil =>
      intro acc _ _ _
      show acc = _
      simp
  | cons r rest ih =>
      intro acc hnd hp hl
      simp only [List.map_cons, List.nodup_cons] at hnd
      simp only [transformUpserts]
      rw [contains_eq_false_of_not_mem _ _ (hp r (by simp))]
      simp only [Bool.false_eq_true, if_false, idMapper]
      rw [if_neg (by simp [findSourceM_empty])]
      simp only [findDestM_empty, truthyStr]
      rw [jsSet_append_of_not_mem _ _ _ (hl r (by simp))]
      have hpadd : jsSetAdd acc.pushed r.id = acc.pushed ++ [r.id] := by
        unfold jsSetAdd
        rw [contains_eq_false_of_not_mem _ _ (hp r (by simp))]
        simp
      rw [hpadd]
      have h1 : ∀ r' ∈ rest, r'.id ∉
          ({ acc with
              upserts := acc.upserts ++ [r]
              linkMap := acc.linkMap ++ [(r.id, r.id)]
              pushed := acc.pushed ++ [r.id] } : TransformAcc).pushed := by
        intro r' hr'
        simp only [List.mem_append, List.mem_singleton]
        push_neg
        refine ⟨hp r' (by simp [hr']), ?_⟩
        intro e
        exact hnd.1 (e ▸ List.mem_map_of_mem Rec.id hr')
      have h2 : ∀ r' ∈ rest, r'.id ∉
          (({ acc with
              upserts := acc.upserts ++ [r]
              linkMap := acc.linkMap ++ [(r.id, r.id)]
              pushed := acc.pushed ++ [r.id] } : TransformAcc)).linkMap.map
            Prod.fst := by
        intro r' hr'
        simp only [List.map_append, List.mem_append, List.map_cons,
          List.map_nil, List.mem_singleton]
        push_neg
        refine ⟨hl r' (by simp [hr']), ?_⟩
        intro e
        exact hnd.1 (e ▸ List.mem_map_of_mem Rec.id hr')
      rw [ih _ hnd.2 h1 h2]
      simp [List.append_assoc]

/-- The transform of an empty changeset passes the accumulator through. -/
theorem transformAndDedup_empty (dp : String → Option Int)
    (policy : ConflictPolicyM) (mapper : Rec → Except String Rec)
    (li : LinkIndexState) (pushed : List String) (stats : Stats) :
    transformAndDedup dp policy mapper li { upserts := [], deletes := [] }
      pushed stats =
      { upserts := [], deletes := [], linkMap := [], pushed := pushed,
        stats := stats } := rfl

/-- The first cycle's A→B transform over fresh records with the identity
mapper: everything is pushed and the identity link pairs are queued. -/
theorem transformAndDedup_fresh (dp : String → Option Int)
    (policy : ConflictPolicyM) (l : List Rec)
    (hnd : (l.map Rec.id).Nodup) :
    transformAndDedup dp policy idMapper emptyLinkIndex
        { upserts := l, deletes := [] } [] {} =
      { upserts := l, deletes := [], linkMap := l.map (fun r => (r.id, r.id)),
        pushed := l.map Rec.id, stats := {} } := by
  unfold transformAndDedup
  dsimp only
  rw [transformUpserts_fresh dp policy l _ hnd (by simp) (by simp)]
  simp [transformDeletes]

/-- Echo suppression: when every pulled record is already linked to itself,
the upsert loop emits nothing and leaves the accumulator untouched. -/
theorem transformUpserts_suppressed (dp : String → Option Int)
    (policy : ConflictPolicyM) (li : LinkIndexState) :
    ∀ (l : List Rec) (acc : TransformAcc),
      (∀ r ∈ l, findSourceM li r.id = some r.id) →
      transformUpserts dp policy idMapper li l acc = acc := by
  intro l
  induction l with
  | nil =>
      intro acc _
      rfl
  | cons r rest ih =>
      intro acc hsup
      simp only [transformUpserts]
      by_cases hc : acc.pushed.contains r.id = true
      · rw [if_pos hc]
        exact ih acc (fun r' h => hsup r' (by simp [h]))
      · rw [if_neg hc]
        simp only [idMapper]
        rw [if_pos (hsup r (by simp))]
        exact ih acc (fun r' h => hsup r' (by simp [h]))

/-- Echo suppression through `transformAndDedup` for an upsert-only pull. -/
theorem transformAndDedup_suppressed (dp : String → Option Int)
    (policy : ConflictPolicyM) (li : LinkIndexState) (l : List Rec)
    (pushed : List String) (stats : Stats)
    (h : ∀ r ∈ l, findSourceM li r.id = some r.id) :
    transformAndDedup dp policy idMapper li { upserts := l, deletes := [] }
      pushed stats =
      { upserts := [], deletes := [], linkMap := [], pushed := pushed,
        stats := stats } := by
  unfold transformAndDedup
  dsimp only
  rw [transformUpserts_suppressed dp policy li l _ h]
  rfl

/-- Pushing an upsert-only changeset through the in-memory adapter succeeds
and replays the upserts into the records map in order. -/
theorem pushChanges_inMem_upserts (dp : String → Option Int) (side : Side)
    (l : List Rec) (n mA bS : Nat) (hn : 0 < n) (hmA : 0 < mA)
    (s : AdapterState) (stats : Stats) (tr : List Ev) :
    ∃ evs, pushChanges (inMemAdapter dp) side { upserts := l, deletes := [] }
        n mA bS s stats tr =
      (.ok (), { records := l.foldl jsRecSet s.records,
                 deletedIds := s.deletedIds }, stats, tr ++ evs) := by
  refine ⟨((jsChunks n l).map (fun b => ChangeSetM.mk b [])).foldr
    (fun b acc => Ev.throttle side :: Ev.applyChanges side b :: acc) [], ?_⟩
  unfold pushChanges
  dsimp only
  rw [pushBatches_inMem dp side mA bS hmA]
  simp only [show jsChunks n ([] : List String) = [] from rfl, List.map_nil,
    List.append_nil]
  rw [jsChunks, foldl_inMemApply_chunks n hn l.length l s le_rfl]

/-- Installing a duplicate-free batch of identity links whose keys are fresh
in both maps appends the pairs to both maps and changes nothing else. -/
theorem installLinks_fresh :
    ∀ (l : List Rec) (li : LinkIndexState) (tr : List Ev),
      (l.map Rec.id).Nodup →
      (∀ r ∈ l, r.id ∉ li.sourceToDest.map Prod.fst) →
      (∀ r ∈ l, r.id ∉ li.destToSource.map Prod.fst) →
      (installLinks li tr (l.map (fun r => (r.id, r.id)))).1 =
        { li with
          sourceToDest := li.sourceToDest ++ l.map (fun r => (r.id, r.id))
          destToSource := li.destToSource ++ l.map (fun r => (r.id, r.id)) }
  | [], li, tr, _, _, _ => by
      simp [installLinks]
  | r :: rest, li, tr, hnd, hs, hd => by
      simp only [List.map_cons, List.nodup_cons] at hnd
      simp only [List.map_cons, installLinks]
      have h1 : jsGet li.sourceToDest r.id = none :=
        jsGet_eq_none_of_not_mem_keys _ _ (hs r (by simp))
      have h2 : jsGet li.destToSource r.id = none :=
        jsGet_eq_none_of_not_mem_keys _ _ (hd r (by simp))
      have hup : upsertLinkM li r.id r.id =
          { li with
            sourceToDest := li.sourceToDest ++ [(r.id, r.id)]
            destToSource := li.destToSource ++ [(r.id, r.id)] } := by
        unfold upsertLinkM
        simp only [h1, h2, truthyStr]
        rw [jsSet_append_of_not_mem _ _ _ (hs r (by simp)),
          jsSet_append_of_not_mem _ _ _ (hd r (by simp))]
      rw [hup]
      have hs' : ∀ r' ∈ rest, r'.id ∉
          (li.sourceToDest ++ [(r.id, r.id)]).map Prod.fst := by
        intro r' hr'
        simp only [List.map_append, List.mem_append, List.map_cons,
          List.map_nil, List.mem_singleton]
        push_neg
        refine ⟨hs r' (by simp [hr']), ?_⟩
        intro e
        exact hnd.1 (e ▸ List.mem_map_of_mem Rec.id hr')
      have hd' : ∀ r' ∈ rest, r'.id ∉
          (li.destToSource ++ [(r.id, r.id)]).map Prod.fst := by
        intro r' hr'
        simp only [List.map_append, List.mem_append, List.map_cons,
          List.map_nil, List.mem_singleton]
        push_neg
        refine ⟨hd r' (by simp [hr']), ?_⟩
        intro e
        exact hnd.1 (e ▸ List.mem_map_of_mem Rec.id hr')
      rw [installLinks_fresh rest _ _ hnd.2 hs' hd']
      simp [List.append_assoc]

/-- The idempotence job configuration: the normalised defaults with job id
`"job"`. -/
def c6cfg : EngineCfg := { jobId := "job" }

/-- The comparator-sorted view of a record list, as
`InMemoryAdapter.getUpdates` enumerates it. -/
def c6sorted (dp : String → Option Int) (recs : List Rec) : List Rec :=
  recs.insertionSort (fun a b => recCompare dp a b ≤ 0)

/-- The identity link pairs the first cycle installs. -/
def c6pairs (dp : String → Option Int) (recs : List Rec) :
    List (String × String) :=
  (c6sorted dp recs).map (fun r => (r.id, r.id))

/-- First cycle: side A holds `recs`, side B is empty, no links, identity
mappers both ways. -/
def c6run1 (dp : String → Option Int) (recs : List Rec) :
    RunResult AdapterState AdapterState :=
  runModel dp c6cfg idMapper idMapper (inMemAdapter dp) (inMemAdapter dp)
    "run1" { records := recs, deletedIds := [] }
    { records := [], deletedIds := [] } emptyLinkIndex

/-- Second cycle, immediately after the first, with no external changes in
between. -/
def c6run2 (dp : String → Option Int) (recs : List Rec) :
    RunResult AdapterState AdapterState :=
  runModel dp c6cfg idMapper idMapper (inMemAdapter dp) (inMemAdapter dp)
    "run2" (c6run1 dp recs).stA (c6run1 dp recs).stB (c6run1 dp recs).li

theorem c6sorted_perm (dp : String → Option Int) (recs : List Rec) :
    (c6sorted dp recs).Perm recs :=
  List.perm_insertionSort _ recs

theorem c6sorted_nodup (dp : String → Option Int) (recs : List Rec)
    (h : (recs.map Rec.id).Nodup) : ((c6sorted dp recs).map Rec.id).Nodup :=
  (List.Perm.nodup_iff ((c6sorted_perm dp recs).map Rec.id)).mpr h

theorem inMem_getUpdates_eq (dp : String → Option Int) (st : AdapterState)
    (c : CursorM) :
    (inMemAdapter dp).getUpdates st c =
      (.ok (inMemGetUpdates dp st c).1, (inMemGetUpdates dp st c).2) := rfl

/-- A pull on a fresh (`null`) cursor returns the whole sorted record list and
clears the pending deletes. -/
theorem inMemGetUpdates_none (dp : String → Option Int) (st : AdapterState) :
    inMemGetUpdates dp st { value := none } =
      (({ upserts :=
            st.records.insertionSort (fun a b => recCompare dp a b ≤ 0),
          deletes := st.deletedIds },
        { value := some (toString (st.records.insertionSort
            (fun a b => recCompare dp a b ≤ 0)).length) }),
       { records := st.records, deletedIds := [] }) := by
  simp [inMemGetUpdates, truthyStr]

/-- A pull on any cursor returns a suffix of the sorted record list. -/
theorem inMemGetUpdates_drop (dp : String → Option Int) (st : AdapterState)
    (c : CursorM) :
    ∃ k, inMemGetUpdates dp st c =
      (({ upserts := (st.records.insertionSort
            (fun a b => recCompare dp a b ≤ 0)).drop k,
          deletes := st.deletedIds },
        { value := some (toString (st.records.insertionSort
            (fun a b => recCompare dp a b ≤ 0)).length) }),
       { records := st.records, deletedIds := [] }) := by
  refine ⟨match truthyStr c.value with
    | some s => jsParseIntNat s
    | none => 0, ?_⟩
  rfl

/-- The link index a chain of `upsertLink` calls produces does not depend on
the trace accumulator. -/
theorem installLinks_fst :
    ∀ (p : List (String × String)) (li : LinkIndexState) (tr : List Ev),
      (installLinks li tr p).1 =
        p.foldl (fun st q => upsertLinkM st q.1 q.2) li
  | [], li, tr => rfl
  | (s, d) :: rest, li, tr => by
      simp only [installLinks, List.foldl_cons]
      exact installLinks_fst rest _ _

theorem runPersist_stA (runId : String) (cfg : EngineCfg)
    (ncA ncB : CursorM) (stats : Stats) (sa : α) (sb : β)
    (li : LinkIndexState) (tr : List Ev) :
    (runPersist runId cfg ncA ncB stats sa sb li tr).stA = sa := rfl

theorem runPersist_stB (runId : String) (cfg : EngineCfg)
    (ncA ncB : CursorM) (stats : Stats) (sa : α) (sb : β)
    (li : LinkIndexState) (tr : List Ev) :
    (runPersist runId cfg ncA ncB stats sa sb li tr).stB = sb := rfl

theorem runPersist_sourceToDest (runId : String) (cfg : EngineCfg)
    (ncA ncB : CursorM) (stats : Stats) (sa : α) (sb : β)
    (li : LinkIndexState) (tr : List Ev) :
    (runPersist runId cfg ncA ncB stats sa sb li tr).li.sourceToDest =
      li.sourceToDest := rfl

theorem runPersist_destToSource (runId : String) (cfg : EngineCfg)
    (ncA ncB : CursorM) (stats : Stats) (sa : α) (sb : β)
    (li : LinkIndexState) (tr : List Ev) :
    (runPersist runId cfg ncA ncB stats sa sb li tr).li.destToSource =
      li.destToSource := rfl

theorem runPersist_disabledJobs (runId : String) (cfg : EngineCfg)
    (ncA ncB : CursorM) (stats : Stats) (sa : α) (sb : β)
    (li : LinkIndexState) (tr : List Ev) :
    (runPersist runId cfg ncA ncB stats sa sb li tr).li.disabledJobs =
      li.disabledJobs := rfl

theorem runPersist_summary (runId : String) (cfg : EngineCfg)
    (ncA ncB : CursorM) (stats : Stats) (sa : α) (sb : β)
    (li : LinkIndexState) (tr : List Ev) (h : stats.errors = []) :
    (runPersist runId cfg ncA ncB stats sa sb li tr).summary =
      { runId := runId, jobId := cfg.jobId, status := .success,
        summaryJson := { stats := stats } } := by
  unfold runPersist
  rw [h]
  simp

/-- A direction block with nothing to push goes straight to persistence. -/
theorem runDirBtoA_empty (runId : String) (cfg : EngineCfg)
    (adA : AdapterImpl α) (ncA ncB : CursorM) (stats : Stats) (sa : α)
    (sb : β) (li : LinkIndexState) (tr : List Ev) :
    runDirBtoA runId cfg adA { upserts := [], deletes := [] } [] ncA ncB
      stats sa sb li tr = runPersist runId cfg ncA ncB stats sa sb li tr := by
  unfold runDirBtoA
  rw [if_neg (by simp)]

/-- The A→B block at an in-memory destination with an upsert-only changeset
and no B→A changes: the push always succeeds, B's records absorb the upserts,
the direction's links are installed, and control reaches `runPersist`. -/
theorem runDirAtoB_inMem_run (runId : String) (cfg : EngineCfg)
    (adA : AdapterImpl α) (dp : String → Option Int) (l : List Rec)
    (lm : List (String × String)) (ncA ncB : CursorM) (sa : α)
    (sb : AdapterState) (li : LinkIndexState) (tr : List Ev)
    (hmA : 0 < cfg.maxAttempts) (hn : 0 < cfg.batchSizeB)
    (hlm : l = [] → lm = []) :
    ∃ tr2,
      runDirAtoB runId cfg adA (inMemAdapter dp)
          { upserts := l, deletes := [] } { upserts := [], deletes := [] }
          lm [] ncA ncB {} sa sb li tr =
        runPersist runId cfg ncA ncB { upsertsAtoB := l.length } sa
          { records := l.foldl jsRecSet sb.records,
            deletedIds := sb.deletedIds }
          (lm.foldl (fun st q => upsertLinkM st q.1 q.2) li) tr2 := by
  by_cases hl : 0 < l.length
  · unfold runDirAtoB
    rw [if_pos (Or.inl hl)]
    obtain ⟨evs, hpush⟩ := pushChanges_inMem_upserts dp Side.b l
      cfg.batchSizeB cfg.maxAttempts cfg.backoffSec hn hmA sb {} tr
    simp only [hpush]
    rw [runDirBtoA_empty]
    refine ⟨(installLinks li (tr ++ evs) lm).2, ?_⟩
    rw [installLinks_fst]
    rfl
  · unfold runDirAtoB
    rw [if_neg (fun hcon => hcon.elim hl (fun h => by simp at h))]
    rw [runDirBtoA_empty]
    have hle : l = [] := List.length_eq_zero.mp (Nat.eq_zero_of_not_pos hl)
    have hlme : lm = [] := hlm hle
    subst hle
    subst hlme
    exact ⟨tr, rfl⟩

/-- What the first cycle leaves behind: side A untouched, side B holding the
comparator-sorted records, identity links installed symmetrically, and the
job never disabled. -/
theorem c6run1_spec (dp : String → Option Int) (recs : List Rec)
    (hids : (recs.map Rec.id).Nodup) :
    (c6run1 dp recs).stA = { records := recs, deletedIds := [] } ∧
    (c6run1 dp recs).stB =
      { records := c6sorted dp recs, deletedIds := [] } ∧
    (c6run1 dp recs).li.sourceToDest = c6pairs dp recs ∧
    (c6run1 dp recs).li.destToSource = c6pairs dp recs ∧
    (c6run1 dp recs).li.disabledJobs = [] := by
  have hnd := c6sorted_nodup dp recs hids
  simp only [c6sorted] at hnd
  obtain ⟨tr2, hdir⟩ := runDirAtoB_inMem_run "run1" c6cfg (inMemAdapter dp)
    dp (recs.insertionSort (fun a b => recCompare dp a b ≤ 0))
    ((recs.insertionSort (fun a b => recCompare dp a b ≤ 0)).map
      (fun r => (r.id, r.id)))
    { value := some (toString
        (recs.insertionSort (fun a b => recCompare dp a b ≤ 0)).length) }
    { value := some (toString (0 : Nat)) }
    { records := recs, deletedIds := [] }
    { records := [], deletedIds := [] } emptyLinkIndex
    [Ev.getUpdates Side.a, Ev.getUpdates Side.b]
    (by decide) (by decide) (by intro h; rw [h]; rfl)
  have hrun : c6run1 dp recs = runPersist "run1" c6cfg
      { value := some (toString
          (recs.insertionSort (fun a b => recCompare dp a b ≤ 0)).length) }
      { value := some (toString (0 : Nat)) }
      { upsertsAtoB :=
          (recs.insertionSort (fun a b => recCompare dp a b ≤ 0)).length }
      { records := recs, deletedIds := [] }
      { records := (recs.insertionSort
          (fun a b => recCompare dp a b ≤ 0)).foldl jsRecSet [],
        deletedIds := [] }
      (((recs.insertionSort (fun a b => recCompare dp a b ≤ 0)).map
          (fun r => (r.id, r.id))).foldl
        (fun st q => upsertLinkM st q.1 q.2) emptyLinkIndex) tr2 := by
    rw [← hdir]
    unfold c6run1 runModel
    rw [if_neg (by decide)]
    simp only [show loadCursorM emptyLinkIndex c6cfg.jobId c6cfg.sideKeyA =
        ({ value := none } : CursorM) from rfl,
      show loadCursorM emptyLinkIndex c6cfg.jobId c6cfg.sideKeyB =
        ({ value := none } : CursorM) from rfl,
      show ([] : List Rec).insertionSort
        (fun a b => recCompare dp a b ≤ 0) = [] from rfl,
      inMem_getUpdates_eq, inMemGetUpdates_none, List.length_nil]
    rw [transformAndDedup_fresh dp c6cfg.policy _ hnd]
    rw [transformAndDedup_empty]
    rfl
  rw [hrun, runPersist_stA, runPersist_stB, runPersist_sourceToDest,
    runPersist_destToSource, runPersist_disabledJobs]
  refine ⟨rfl, ?_, ?_, ?_, ?_⟩
  · rw [foldl_jsRecSet_fresh _ [] hnd (by simp)]
    simp [c6sorted]
  · rw [← installLinks_fst _ emptyLinkIndex []]
    rw [installLinks_fresh _ emptyLinkIndex [] hnd (by simp [emptyLinkIndex])
      (by simp [emptyLinkIndex])]
    simp [emptyLinkIndex, c6pairs, c6sorted]
  · rw [← installLinks_fst _ emptyLinkIndex []]
    rw [installLinks_fresh _ emptyLinkIndex [] hnd (by simp [emptyLinkIndex])
      (by simp [emptyLinkIndex])]
    simp [emptyLinkIndex, c6pairs, c6sorted]
  · rw [← installLinks_fst _ emptyLinkIndex []]
    rw [installLinks_fresh _ emptyLinkIndex [] hnd (by simp [emptyLinkIndex])
      (by simp [emptyLinkIndex])]
    rfl

/-- A cycle with nothing to push in either direction goes straight to
persistence. -/
theorem runDirAtoB_empty (runId : String) (cfg : EngineCfg)
    (adA : AdapterImpl α) (adB : AdapterImpl β) (ncA ncB : CursorM)
    (stats : Stats) (sa : α) (sb : β) (li : LinkIndexState) (tr : List Ev) :
    runDirAtoB runId cfg adA adB { upserts := [], deletes := [] }
      { upserts := [], deletes := [] } [] [] ncA ncB stats sa sb li tr =
      runPersist runId cfg ncA ncB stats sa sb li tr := by
  unfold runDirAtoB
  rw [if_neg (by simp)]
  exact runDirBtoA_empty runId cfg adA ncA ncB stats sa sb li tr

/-- C6: echo idempotence. Running `run()` twice in a row with no external
changes performs zero upserts and zero deletes on the second call: the second
summary's stats are all zero with status `success`, both record stores are
unchanged, and no new links are installed — every record the second cycle
re-pulls is already linked to itself, so the
`findSource(destRec.id) === sourceRec.id` guard of `transformAndDedup`
suppresses it. -/
theorem c6_echo_idempotence (dp : String → Option Int) (recs : List Rec)
    (hids : (recs.map Rec.id).Nodup) :
    (c6run2 dp recs).summary.summaryJson.stats.upsertsAtoB = 0 ∧
    (c6run2 dp recs).summary.summaryJson.stats.upsertsBtoA = 0 ∧
    (c6run2 dp recs).summary.summaryJson.stats.deletesAtoB = 0 ∧
    (c6run2 dp recs).summary.summaryJson.stats.deletesBtoA = 0 ∧
    (c6run2 dp recs).summary.status = RunStatus.success ∧
    (c6run2 dp recs).stA.records = (c6run1 dp recs).stA.records ∧
    (c6run2 dp recs).stB.records = (c6run1 dp recs).stB.records ∧
    (c6run2 dp recs).li.sourceToDest = (c6run1 dp recs).li.sourceToDest ∧
    (c6run2 dp recs).li.destToSource = (c6run1 dp recs).li.destToSource := by
  obtain ⟨hA, hB, hS2D, hD2S, hDIS⟩ := c6run1_spec dp recs hids
  obtain ⟨kA, hpA⟩ := inMemGetUpdates_drop dp
    { records := recs, deletedIds := [] }
    (loadCursorM (c6run1 dp recs).li c6cfg.jobId c6cfg.sideKeyA)
  obtain ⟨kB, hpB⟩ := inMemGetUpdates_drop dp
    { records := c6sorted dp recs, deletedIds := [] }
    (loadCursorM (c6run1 dp recs).li c6cfg.jobId c6cfg.sideKeyB)
  have hsupA : ∀ r ∈ (recs.insertionSort
      (fun a b => recCompare dp a b ≤ 0)).drop kA,
      findSourceM (c6run1 dp recs).li r.id = some r.id := by
    intro r hr
    have h1 : r ∈ recs.insertionSort (fun a b => recCompare dp a b ≤ 0) :=
      List.mem_of_mem_drop hr
    have h2 : r ∈ recs := (List.perm_insertionSort _ recs).mem_iff.mp h1
    have h3 : r ∈ c6sorted dp recs := (c6sorted_perm dp recs).mem_iff.mpr h2
    have hmem : r.id ∈ (c6sorted dp recs).map Rec.id :=
      List.mem_map_of_mem Rec.id h3
    unfold findSourceM
    rw [hD2S]
    exact jsGet_idPairs (c6sorted dp recs) r.id hmem
  have hsupB : ∀ r ∈ ((c6sorted dp recs).insertionSort
      (fun a b => recCompare dp a b ≤ 0)).drop kB,
      findSourceM (c6run1 dp recs).li r.id = some r.id := by
    intro r hr
    have h1 : r ∈ (c6sorted dp recs).insertionSort
        (fun a b => recCompare dp a b ≤ 0) := List.mem_of_mem_drop hr
    have h3 : r ∈ c6sorted dp recs :=
      (List.perm_insertionSort _ (c6sorted dp recs)).mem_iff.mp h1
    have hmem : r.id ∈ (c6sorted dp recs).map Rec.id :=
      List.mem_map_of_mem Rec.id h3
    unfold findSourceM
    rw [hD2S]
    exact jsGet_idPairs (c6sorted dp recs) r.id hmem
  have hrun : c6run2 dp recs = runPersist "run2" c6cfg
      (inMemGetUpdates dp { records := recs, deletedIds := [] }
        (loadCursorM (c6run1 dp recs).li c6cfg.jobId c6cfg.sideKeyA)).1.2
      (inMemGetUpdates dp { records := c6sorted dp recs, deletedIds := [] }
        (loadCursorM (c6run1 dp recs).li c6cfg.jobId c6cfg.sideKeyB)).1.2
      {} { records := recs, deletedIds := [] }
      { records := c6sorted dp recs, deletedIds := [] }
      (c6run1 dp recs).li
      [Ev.getUpdates Side.a, Ev.getUpdates Side.b] := by
    unfold c6run2 runModel
    rw [hA, hB]
    rw [if_neg (by simp [isJobDisabledM, hDIS, jsGet])]
    simp only [inMem_getUpdates_eq, hpA, hpB]
    rw [transformAndDedup_suppressed dp c6cfg.policy _ _ _ _ hsupA]
    rw [transformAndDedup_suppressed dp c6cfg.policy _ _ _ _ hsupB]
    rw [runDirAtoB_empty]
    rfl
  rw [hrun, runPersist_stA, runPersist_stB, runPersist_sourceToDest,
    runPersist_destToSource, runPersist_summary _ _ _ _ _ _ _ _ _ rfl,
    hA, hB]
  exact ⟨rfl, rfl, rfl, rfl, rfl, rfl, rfl, rfl, rfl⟩

/-- Concrete records for the idempotence scenario: two records with distinct
ids on side A. -/
def c6recs : List Rec :=
  [{ id := "a1", fields := [("name", .str "Alice")] },
   { id := "a2", fields := [("name", .str "Bob")] }]

theorem c6_witness :
    ((c6recs.map Rec.id).Nodup) ∧
    ((c6run2 noParse c6recs).summary.summaryJson.stats.upsertsAtoB = 0 ∧
     (c6run2 noParse c6recs).summary.summaryJson.stats.upsertsBtoA = 0 ∧
     (c6run2 noParse c6recs).summary.summaryJson.stats.deletesAtoB = 0 ∧
     (c6run2 noParse c6recs).summary.summaryJson.stats.deletesBtoA = 0 ∧
     (c6run2 noParse c6recs).summary.status = RunStatus.success ∧
     (c6run2 noParse c6recs).stA.records =
       (c6run1 noParse c6recs).stA.records ∧
     (c6run2 noParse c6recs).stB.records =
       (c6run1 noParse c6recs).stB.records ∧
     (c6run2 noParse c6recs).li.sourceToDest =
       (c6run1 noParse c6recs).li.sourceToDest ∧
     (c6run2 noParse c6recs).li.destToSource =
       (c6run1 noParse c6recs).li.destToSource) :=
  ⟨by decide, c6_echo_idempotence noParse c6recs (by decide)⟩

end SyncFrame
